import Mathlib

/-!
# Verification of `anonymize_data.py`

A shallow embedding of the anonymizer script: JSON values, the Python
string form used as hash input, SHA-256 over byte lists, the recursive
field anonymizer with its shared hash-to-original mapping, the per-file
processors, the main routing loop, and the mapping persistence step.
Definitions follow the source; theorems settle the spec's claims.
-/

set_option maxHeartbeats 1000000
set_option maxRecDepth 16384

namespace Anonymizer

/-- JSON values as parsed by Python's `json` module: objects keep their
key order (Python dicts are insertion ordered), numbers are modelled as
integers. -/
inductive Json where
  | null : Json
  | bool (b : Bool) : Json
  | num (n : Int) : Json
  | str (s : String) : Json
  | arr (items : List Json) : Json
  | obj (entries : List (String × Json)) : Json

/-- `value is None` check from the source (`hash_value`, `anonymize_dict`). -/
def Json.isNull : Json → Bool
  | .null => true
  | _ => false

mutual

/-- Structural equality of JSON values (Python `==` on parsed values). -/
def Json.beq : Json → Json → Bool
  | .null, .null => true
  | .bool a, .bool b => a == b
  | .num a, .num b => a == b
  | .str a, .str b => a == b
  | .arr a, .arr b => beqItems a b
  | .obj a, .obj b => beqEntries a b
  | _, _ => false

/-- Elementwise equality of JSON arrays. -/
def beqItems : List Json → List Json → Bool
  | [], [] => true
  | a :: as, b :: bs => Json.beq a b && beqItems as bs
  | _, _ => false

/-- Entrywise equality of JSON objects. -/
def beqEntries : List (String × Json) → List (String × Json) → Bool
  | [], [] => true
  | (k1, v1) :: as, (k2, v2) :: bs => k1 == k2 && Json.beq v1 v2 && beqEntries as bs
  | _, _ => false

end

mutual

theorem Json.beq_iff : ∀ a b : Json, Json.beq a b = true ↔ a = b
  | .null, .null => by simp [Json.beq]
  | .null, .bool _ | .null, .num _ | .null, .str _ | .null, .arr _ | .null, .obj _ =>
      by simp [Json.beq]
  | .bool _, .null | .bool _, .num _ | .bool _, .str _ | .bool _, .arr _ | .bool _, .obj _ =>
      by simp [Json.beq]
  | .num _, .null | .num _, .bool _ | .num _, .str _ | .num _, .arr _ | .num _, .obj _ =>
      by simp [Json.beq]
  | .str _, .null | .str _, .bool _ | .str _, .num _ | .str _, .arr _ | .str _, .obj _ =>
      by simp [Json.beq]
  | .arr _, .null | .arr _, .bool _ | .arr _, .num _ | .arr _, .str _ | .arr _, .obj _ =>
      by simp [Json.beq]
  | .obj _, .null | .obj _, .bool _ | .obj _, .num _ | .obj _, .str _ | .obj _, .arr _ =>
      by simp [Json.beq]
  | .bool a, .bool b => by simp [Json.beq]
  | .num a, .num b => by simp [Json.beq]
  | .str a, .str b => by simp [Json.beq]
  | .arr a, .arr b => by simp [Json.beq, beqItems_iff a b]
  | .obj a, .obj b => by simp [Json.beq, beqEntries_iff a b]

theorem beqItems_iff : ∀ a b : List Json, beqItems a b = true ↔ a = b
  | [], [] => by simp [beqItems]
  | [], _ :: _ => by simp [beqItems]
  | _ :: _, [] => by simp [beqItems]
  | a :: as, b :: bs => by
      simp [beqItems, Json.beq_iff a b, beqItems_iff as bs]

theorem beqEntries_iff : ∀ a b : List (String × Json), beqEntries a b = true ↔ a = b
  | [], [] => by simp [beqEntries]
  | [], _ :: _ => by simp [beqEntries]
  | _ :: _, [] => by simp [beqEntries]
  | (k1, v1) :: as, (k2, v2) :: bs => by
      simp [beqEntries, Json.beq_iff v1 v2, beqEntries_iff as bs, and_assoc]

end

instance : DecidableEq Json := fun a b =>
  decidable_of_iff (Json.beq a b = true) (Json.beq_iff a b)

/-! ## Python string forms

`hash_value` hashes `str(value)`. For the value shapes a parsed JSON
document can contain, `str` is: the string itself for `str`, decimal for
`int`, `True` and `False` for booleans, `None` for null, and `repr` for
dicts and lists (single-quoted strings, `\x7b`/`\x7d` braces, comma-space
separators). String `repr` is modelled for printable content: single
quotes by default, double quotes when the string holds a single quote but
no double quote, backslash and quote escaping. -/

def squote : Char := Char.ofNat 39

def dquote : Char := Char.ofNat 34

def backslash : Char := Char.ofNat 92

/-- Python `repr` of a string (printable content). -/
def pyStrRepr (s : String) : String :=
  if s.data.contains squote && !(s.data.contains dquote) then
    String.mk (dquote :: (s.data.foldr
      (fun c acc => if c = backslash then backslash :: backslash :: acc else c :: acc) [dquote]))
  else
    String.mk (squote :: (s.data.foldr
      (fun c acc =>
        if c = backslash then backslash :: backslash :: acc
        else if c = squote then backslash :: squote :: acc
        else c :: acc) [squote]))

/-- Comma-space joined concatenation, as in Python container reprs. -/
def joinComma : List String → String
  | [] => ""
  | [s] => s
  | s :: rest => s ++ ", " ++ joinComma rest

mutual

/-- Python `repr` of a parsed JSON value. -/
def pyRepr : Json → String
  | .null => "None"
  | .bool true => "True"
  | .bool false => "False"
  | .num n => toString n
  | .str s => pyStrRepr s
  | .arr items => "[" ++ joinComma (pyReprItems items) ++ "]"
  | .obj entries => "\x7b" ++ joinComma (pyReprEntries entries) ++ "\x7d"

/-- Reprs of array elements, in order. -/
def pyReprItems : List Json → List String
  | [] => []
  | v :: rest => pyRepr v :: pyReprItems rest

/-- Reprs of object entries, `key: value`, in order. -/
def pyReprEntries : List (String × Json) → List String
  | [] => []
  | (k, v) :: rest => (pyStrRepr k ++ ": " ++ pyRepr v) :: pyReprEntries rest

end

/-- Python `str` of a parsed JSON value: the string itself for strings,
`repr` for everything else. -/
def pyStr : Json → String
  | .str s => s
  | v => pyRepr v

/-! ## UTF-8 and SHA-256

`hash_value` computes `hashlib.sha256(str(value).encode('utf-8')).hexdigest()`.
Bytes are `Nat`s below 256; words are `Nat`s below 2^32 with explicit
`% 2^32` where overflow matters. -/

/-- UTF-8 bytes of one character. -/
def utf8EncodeChar (c : Char) : List Nat :=
  let n := c.toNat
  if n < 128 then [n]
  else if n < 2048 then [192 ||| (n >>> 6), 128 ||| (n &&& 63)]
  else if n < 65536 then
    [224 ||| (n >>> 12), 128 ||| ((n >>> 6) &&& 63), 128 ||| (n &&& 63)]
  else
    [240 ||| (n >>> 18), 128 ||| ((n >>> 12) &&& 63),
     128 ||| ((n >>> 6) &&& 63), 128 ||| (n &&& 63)]

/-- UTF-8 encoding of a string, as a byte list. -/
def utf8Encode (s : String) : List Nat :=
  s.data.foldr (fun c acc => utf8EncodeChar c ++ acc) []

def M32 : Nat := 4294967296

/-- Right rotation of a 32-bit word. -/
def rotr (n w : Nat) : Nat := ((w >>> n) ||| (w <<< (32 - n))) % M32

def bigSigma0 (x : Nat) : Nat := rotr 2 x ^^^ rotr 13 x ^^^ rotr 22 x

def bigSigma1 (x : Nat) : Nat := rotr 6 x ^^^ rotr 11 x ^^^ rotr 25 x

def smallSigma0 (x : Nat) : Nat := rotr 7 x ^^^ rotr 18 x ^^^ (x >>> 3)

def smallSigma1 (x : Nat) : Nat := rotr 17 x ^^^ rotr 19 x ^^^ (x >>> 10)

def chF (x y z : Nat) : Nat := (x &&& y) ^^^ ((x ^^^ 4294967295) &&& z)

def majF (x y z : Nat) : Nat := (x &&& y) ^^^ (x &&& z) ^^^ (y &&& z)

/-- The 64 SHA-256 round constants. -/
def sha256K : List Nat :=
  [1116352408, 1899447441, 3049323471, 3921009573, 961987163, 1508970993,
   2453635748, 2870763221, 3624381080, 310598401, 607225278, 1426881987,
   1925078388, 2162078206, 2614888103, 3248222580, 3835390401, 4022224774,
   264347078, 604807628, 770255983, 1249150122, 1555081692, 1996064986,
   2554220882, 2821834349, 2952996808, 3210313671, 3336571891, 3584528711,
   113926993, 338241895, 666307205, 773529912, 1294757372, 1396182291,
   1695183700, 1986661051, 2177026350, 2456956037, 2730485921, 2820302411,
   3259730800, 3345764771, 3516065817, 3600352804, 4094571909, 275423344,
   430227734, 506948616, 659060556, 883997877, 958139571, 1322822218,
   1537002063, 1747873779, 1955562222, 2024104815, 2227730452, 2361852424,
   2428436474, 2756734187, 3204031479, 3329325298]

/-- SHA-256 working state: eight 32-bit words. -/
structure Hst where
  a : Nat
  b : Nat
  c : Nat
  d : Nat
  e : Nat
  f : Nat
  g : Nat
  hh : Nat

/-- The SHA-256 initial hash value. -/
def initHst : Hst :=
  ⟨1779033703, 3144134277, 1013904242, 2773480762,
   1359893119, 2600822924, 528734635, 1541459225⟩

/-- One compression round. -/
def sha256Round (s : Hst) (k w : Nat) : Hst :=
  let t1 := (s.hh + bigSigma1 s.e + chF s.e s.f s.g + k + w) % M32
  let t2 := (bigSigma0 s.a + majF s.a s.b s.c) % M32
  ⟨(t1 + t2) % M32, s.a, s.b, s.c, (s.d + t1) % M32, s.e, s.f, s.g⟩

/-- Run the rounds over paired constants and schedule words. -/
def sha256Rounds (s : Hst) : List Nat → List Nat → Hst
  | k :: ks, w :: ws => sha256Rounds (sha256Round s k w) ks ws
  | _, _ => s

/-- Big-endian 4-byte groups to 32-bit words. -/
def bytesToWords : List Nat → List Nat
  | b0 :: b1 :: b2 :: b3 :: rest =>
      (((b0 * 256 + b1) * 256 + b2) * 256 + b3) :: bytesToWords rest
  | _ => []

/-- One message-schedule extension step: append word `n` computed from
words `n-2`, `n-7`, `n-15`, `n-16`. -/
def scheduleStep (ws : List Nat) : List Nat :=
  let n := ws.length
  ws ++ [(smallSigma1 (ws.getD (n - 2) 0) + ws.getD (n - 7) 0 +
          smallSigma0 (ws.getD (n - 15) 0) + ws.getD (n - 16) 0) % M32]

/-- Extend the 16 block words to the full 64-word schedule. -/
def buildSchedule (ws : List Nat) : Nat → List Nat
  | 0 => ws
  | k + 1 => buildSchedule (scheduleStep ws) k

/-- Compress one 64-byte block into the state. -/
def processBlock (s : Hst) (block : List Nat) : Hst :=
  let ws := buildSchedule (bytesToWords block) 48
  let t := sha256Rounds s sha256K ws
  ⟨(s.a + t.a) % M32, (s.b + t.b) % M32, (s.c + t.c) % M32, (s.d + t.d) % M32,
   (s.e + t.e) % M32, (s.f + t.f) % M32, (s.g + t.g) % M32, (s.hh + t.hh) % M32⟩

/-- Big-endian 8-byte encoding of the bit length. -/
def lenBytes (bits : Nat) : List Nat :=
  [bits >>> 56 % 256, bits >>> 48 % 256, bits >>> 40 % 256, bits >>> 32 % 256,
   bits >>> 24 % 256, bits >>> 16 % 256, bits >>> 8 % 256, bits % 256]

/-- SHA-256 padding: a `0x80` byte, zeros to 56 mod 64, then the bit length. -/
def padMessage (msg : List Nat) : List Nat :=
  let L := msg.length
  msg ++ 128 :: List.replicate ((120 - (L + 1) % 64) % 64) 0 ++ lenBytes (L * 8)

/-- Split a byte list into 64-byte blocks; the fuel, one unit per input
byte, covers every block since each block consumes at least one byte. -/
def chunk64Go : Nat → List Nat → List (List Nat)
  | 0, _ => []
  | _, [] => []
  | fuel + 1, b :: rest => ((b :: rest).take 64) :: chunk64Go fuel ((b :: rest).drop 64)

/-- Split a byte list into 64-byte blocks. -/
def chunk64 (bs : List Nat) : List (List Nat) := chunk64Go bs.length bs

/-- The final SHA-256 state of a byte message. -/
def sha256State (msg : List Nat) : Hst :=
  (chunk64 (padMessage msg)).foldl processBlock initHst

/-- Lowercase hexadecimal digit character. -/
def hexChar (n : Nat) : Char :=
  if n < 10 then Char.ofNat (48 + n) else Char.ofNat (87 + n)

/-- A 32-bit word as exactly eight lowercase hex characters. -/
def toHex8 (w : Nat) : List Char :=
  [hexChar (w / 16 ^ 7 % 16), hexChar (w / 16 ^ 6 % 16), hexChar (w / 16 ^ 5 % 16),
   hexChar (w / 16 ^ 4 % 16), hexChar (w / 16 ^ 3 % 16), hexChar (w / 16 ^ 2 % 16),
   hexChar (w / 16 % 16), hexChar (w % 16)]

/-- The SHA-256 hex digest of a byte message. -/
def sha256Hex (msg : List Nat) : String :=
  let s := sha256State msg
  String.mk (toHex8 s.a ++ toHex8 s.b ++ toHex8 s.c ++ toHex8 s.d ++
             toHex8 s.e ++ toHex8 s.f ++ toHex8 s.g ++ toHex8 s.hh)

/-- The digest substituted for a (non-null) value: SHA-256 over the UTF-8
bytes of the value's Python string form. -/
def hashString (v : Json) : String := sha256Hex (utf8Encode (pyStr v))

/-- `hash_value` from the source: hex digest of `str(value)`, or `None`
when the value is `None`. -/
def hash_value (v : Json) : Option String :=
  if v.isNull then none else some (hashString v)

/-! ## The shared mapping

The Python `mapping` dict, hash digest to original value, modelled as an
insertion-ordered association list. `mapping[h] = v` on an absent key
appends; the source only ever inserts under `if hashed_value not in
mapping`. -/

/-- The mapping accumulated across the run: digest to original value. -/
abbrev Mapping := List (String × Json)

/-- Dict key lookup. -/
def mlookup : Mapping → String → Option Json
  | [], _ => none
  | (k, v) :: rest, x => if k = x then some v else mlookup rest x

/-- `if hashed_value not in mapping: mapping[hashed_value] = value`. -/
def insertIfAbsent (m : Mapping) (k : String) (v : Json) : Mapping :=
  match mlookup m k with
  | none => m ++ [(k, v)]
  | some _ => m

/-- The hardcoded sensitive-field list of the source. -/
def FIELDS_TO_ANONYMIZE : List String :=
  ["PatientIDx", "PatientID", "TreatmentName", "FirstName", "LastName"]

mutual

/-- `anonymize_dict` from the source: non-dicts pass through; dicts have
their entries rewritten with the mapping threaded left to right. -/
def anonymize_dict (data : Json) (m : Mapping) (fields : List String) : Json × Mapping :=
  match data with
  | .obj entries =>
      let r := anonEntries entries m fields
      (.obj r.1, r.2)
  | other => (other, m)
  termination_by sizeOf data

/-- The body of the `for key, value in data.items()` loop: sensitive
non-null values are hashed and recorded, dict values recurse, list values
have their dict elements recurse, everything else passes through. -/
def anonEntries (es : List (String × Json)) (m : Mapping) (fields : List String) :
    List (String × Json) × Mapping :=
  match es with
  | [] => ([], m)
  | (key, value) :: rest =>
    if key ∈ fields ∧ value.isNull = false then
      let hv := hashString value
      let m1 := insertIfAbsent m hv value
      let r := anonEntries rest m1 fields
      ((key, .str hv) :: r.1, r.2)
    else
      match value with
      | .obj oes =>
          let r1 := anonymize_dict (.obj oes) m fields
          let r2 := anonEntries rest r1.2 fields
          ((key, r1.1) :: r2.1, r2.2)
      | .arr items =>
          let r1 := anonItems items m fields
          let r2 := anonEntries rest r1.2 fields
          ((key, .arr r1.1) :: r2.1, r2.2)
      | v =>
          let r := anonEntries rest m fields
          ((key, v) :: r.1, r.2)
  termination_by sizeOf es

/-- The list comprehension: dict elements are anonymized, others pass
through unchanged. -/
def anonItems (items : List Json) (m : Mapping) (fields : List String) :
    List Json × Mapping :=
  match items with
  | [] => ([], m)
  | item :: rest =>
      match item with
      | .obj oes =>
          let r1 := anonymize_dict (.obj oes) m fields
          let r2 := anonItems rest r1.2 fields
          (r1.1 :: r2.1, r2.2)
      | v =>
          let r := anonItems rest m fields
          (v :: r.1, r.2)
  termination_by sizeOf items

end

/-! ## File-level processing

A JSONL file is seen by `process_jsonl_file` line by line; each line is
either blank (skipped before parsing), a line whose `json.loads` yields a
document, or a line on which `json.loads` raises. A whole `.json` file is
seen by `process_json_file` through one `json.load`, either a document or
a raise, modelled as `Option Json`. An uncaught raise aborts the run; the
in-memory mapping mutated so far survives to the traceback, so errors
carry the mapping. -/

/-- One physical line of a JSONL file, as `line.strip()` and `json.loads`
see it. -/
inductive Line where
  | blank : Line
  | doc (j : Json) : Line
  | malformed : Line
deriving DecidableEq

/-- `process_jsonl_file`: skip blank lines, anonymize each parsed line,
count the lines written; a parse error propagates. On success the file is
replaced by the anonymized documents, one per line. -/
def process_jsonl_file (lines : List Line) (m : Mapping) (fields : List String) :
    Except Mapping (List Json × Mapping × Nat) :=
  match lines with
  | [] => .ok ([], m, 0)
  | .blank :: rest => process_jsonl_file rest m fields
  | .malformed :: _ => .error m
  | .doc j :: rest =>
      let r := anonymize_dict j m fields
      match process_jsonl_file rest r.2 fields with
      | .ok (docs, m2, n) => .ok (r.1 :: docs, m2, n + 1)
      | .error me => .error me

/-- What stands at a file's path after its processing step: the original
bytes, or the serialized documents that replaced them. -/
inductive FileOut where
  | unchanged : FileOut
  | jsonlOut (docs : List Json) : FileOut
  | jsonOut (doc : Json) : FileOut
deriving DecidableEq

/-- `process_json_file` on the parsed top-level document: arrays have
their dict elements anonymized, dicts are anonymized directly, anything
else returns `False` before any write, leaving the file as it was. -/
def process_json_file (doc : Json) (m : Mapping) (fields : List String) :
    Bool × FileOut × Mapping :=
  match doc with
  | .arr items =>
      let r := anonItems items m fields
      (true, .jsonOut (.arr r.1), r.2)
  | .obj entries =>
      let r := anonymize_dict (.obj entries) m fields
      (true, .jsonOut r.1, r.2)
  | _ => (false, .unchanged, m)

/-- Prefix test on character lists. -/
def isPrefixChars : List Char → List Char → Bool
  | [], _ => true
  | _ :: _, [] => false
  | a :: as, b :: bs => a == b && isPrefixChars as bs

/-- Substring test, `needle in hay` on Python strings. -/
def containsSub (hay needle : List Char) : Bool :=
  match hay with
  | [] => isPrefixChars needle []
  | _ :: rest => isPrefixChars needle hay || containsSub rest needle

/-- `'systeminfo' in file_path`. -/
def hasSysteminfo (name : String) : Bool :=
  containsSub name.data "systeminfo".data

/-- `Path(file_path).suffix`: from the last dot of the final path
component, empty when the dot is missing, leading, or trailing. -/
def pathSuffix (name : String) : String :=
  let rev := name.data.reverse.takeWhile (fun c => c ≠ Char.ofNat 47)
  let tail := rev.takeWhile (fun c => c ≠ Char.ofNat 46)
  if tail.length = rev.length then ""
  else if tail.length = 0 then ""
  else if tail.length + 1 = rev.length then ""
  else String.mk (Char.ofNat 46 :: tail.reverse)

/-- One discovered file: its path and its content, the latter as both
parses a file's bytes admit — per line for the JSONL reader, whole for the
JSON reader. -/
structure SrcFile where
  name : String
  lines : List Line
  whole : Option Json

/-- The body of the `for file_path in all_files` loop of `main`: route by
extension, skip `.json` files whose path contains `systeminfo`, thread
the mapping, and add JSONL record counts to the running total. -/
def mainStep (f : SrcFile) (m : Mapping) (fields : List String) :
    Except Mapping (FileOut × Mapping × Nat) :=
  if pathSuffix f.name = ".jsonl" then
    match process_jsonl_file f.lines m fields with
    | .ok (docs, m1, n) => .ok (.jsonlOut docs, m1, n)
    | .error me => .error me
  else if pathSuffix f.name = ".json" then
    if hasSysteminfo f.name then .ok (.unchanged, m, 0)
    else
      match f.whole with
      | none => .error m
      | some doc =>
          let r := process_json_file doc m fields
          .ok (r.2.1, r.2.2, 0)
  else .ok (.unchanged, m, 0)

/-- The file on disk after `main` touches it: an uncaught error leaves
the original in place, since the temp-file replace only runs on success. -/
def fileAfter (f : SrcFile) (m : Mapping) (fields : List String) : FileOut :=
  match mainStep f m fields with
  | .ok (out, _, _) => out
  | .error _ => .unchanged

/-- The whole per-file loop of `main`: files in discovery order, first
error aborts the run with the mapping as mutated so far. -/
def runMain (files : List SrcFile) (m : Mapping) (fields : List String) :
    Except Mapping (List FileOut × Mapping × Nat) :=
  match files with
  | [] => .ok ([], m, 0)
  | f :: rest =>
      match mainStep f m fields with
      | .error me => .error me
      | .ok (out, m1, n) =>
          match runMain rest m1 fields with
          | .ok (outs, m2, total) => .ok (out :: outs, m2, n + total)
          | .error me => .error me

/-- Glob match for the three discovery patterns: one `*`, so a name
matches when it starts with the pattern's part before the star and ends
with the part after it, without overlap. -/
def matchGlob (before after : List Char) (name : List Char) : Bool :=
  isPrefixChars before name &&
  isPrefixChars after.reverse name.reverse &&
  decide (before.length + after.length ≤ name.length)

/-- `main`'s discovery: `data_*.jsonl`, `failed_treatments_*.json`,
`failed_patients_*.json`. -/
def discovered (name : String) : Bool :=
  matchGlob "data_".data ".jsonl".data name.data ||
  matchGlob "failed_treatments_".data ".json".data name.data ||
  matchGlob "failed_patients_".data ".json".data name.data

/-! ## Mapping persistence -/

/-- Python's numeric view of a parsed value used as a dict key:
booleans are their integer values, so `True` collides with `1` and
`False` with `0`. -/
def pyKeyNum : Json → Option Int
  | .bool b => some (if b then 1 else 0)
  | .num n => some n
  | _ => none

/-- Python `==` as dict-key identification on parsed values: numeric
values — booleans included — compare by value, everything else
structurally. (Keys that reach a dict are hashable scalars: dict and
list assignments raise before any comparison.) -/
def pyEq (a b : Json) : Bool :=
  match pyKeyNum a, pyKeyNum b with
  | some x, some y => x == y
  | some _, none => false
  | none, some _ => false
  | none, none => Json.beq a b

/-- Python dict keys must be hashable: a dict or list key raises
`TypeError: unhashable type`. -/
def Json.hashable : Json → Bool
  | .obj _ => false
  | .arr _ => false
  | _ => true

/-- Key lookup in the reverse mapping, by Python `==`. -/
def rlookup : List (Json × String) → Json → Option String
  | [], _ => none
  | (k, v) :: rest, x => if pyEq k x then some v else rlookup rest x

/-- Python dict assignment `reverse[original] = hash_val`: raises on an
unhashable key; otherwise the entry whose key compares `==` to the new
key has its value overwritten in place — the stored key and its position
survive — and a fresh key is appended. -/
def dictInsert (acc : List (Json × String)) (k : Json) (v : String) :
    Except Unit (List (Json × String)) :=
  if k.hashable then
    match rlookup acc k with
    | some _ => .ok (acc.map (fun p => if pyEq p.1 k then (p.1, v) else p))
    | none => .ok (acc ++ [(k, v)])
  else .error ()

/-- The comprehension items, left to right in insertion order; the first
unhashable original aborts it. -/
def reverseMappingGo (acc : List (Json × String)) :
    Mapping → Except Unit (List (Json × String))
  | [] => .ok acc
  | p :: rest =>
      match dictInsert acc p.2 p.1 with
      | .ok acc2 => reverseMappingGo acc2 rest
      | .error e => .error e

/-- The reverse-mapping dict comprehension of `save_mapping`. -/
def reverseMapping (m : Mapping) : Except Unit (List (Json × String)) :=
  reverseMappingGo [] m

/-- The document `save_mapping` writes to `anonymization_mapping.json`. -/
structure MappingDoc where
  hash_to_original : Mapping
  original_to_hash : List (Json × String)
  total_mappings : Nat

/-- `save_mapping`: the reverse comprehension runs first — a `TypeError`
there propagates and nothing is written — then the document with both
halves and the entry count. -/
def save_mapping (m : Mapping) : Except Unit MappingDoc :=
  match reverseMapping m with
  | .ok rev =>
      .ok { hash_to_original := m
            original_to_hash := rev
            total_mappings := m.length }
  | .error e => .error e

/-- All stored originals are hashable: no dict or list original. -/
def HashableVals (m : Mapping) : Prop := ∀ p ∈ m, p.2.hashable = true

/-- The stored originals are pairwise distinct under Python `==` — in
particular no boolean original coexists with its integer value. -/
def PyDistinct (m : Mapping) : Prop :=
  (m.map Prod.snd).Pairwise (fun a b => pyEq a b = false)

/-! ## Spec-side transform

A mapping-free transform transcribed from the words of the claim about
the recursive anonymizer: a sensitive key with a non-null value becomes
the digest of the value's string form, object values are recursively
anonymized, array values have their object elements recursively
anonymized and other elements kept, everything else is unchanged and no
keys are added. Comparing it with the source's `anonymize_dict` is the
refinement content of that claim. -/

mutual

/-- What the claim says one entry's value becomes. -/
def specEntry (fields : List String) (k : String) (v : Json) : Json :=
  if k ∈ fields ∧ v.isNull = false then .str (hashString v)
  else
    match v with
    | .obj oes => .obj (specEntries fields oes)
    | .arr items => .arr (specItems fields items)
    | w => w
  termination_by sizeOf v

/-- What the claim says an object's entry list becomes. -/
def specEntries (fields : List String) : List (String × Json) → List (String × Json)
  | [] => []
  | (k, v) :: rest => (k, specEntry fields k v) :: specEntries fields rest
  termination_by es => sizeOf es

/-- What the claim says an array becomes: object elements recursively
anonymized, other elements unchanged. -/
def specItems (fields : List String) : List Json → List Json
  | [] => []
  | .obj oes :: rest => .obj (specEntries fields oes) :: specItems fields rest
  | v :: rest => v :: specItems fields rest
  termination_by items => sizeOf items

end

/-- Top-level shape test: JSON object. -/
def Json.isObjB : Json → Bool
  | .obj _ => true
  | _ => false

/-- Top-level shape test: JSON array. -/
def Json.isArrB : Json → Bool
  | .arr _ => true
  | _ => false

/-- The documents carried by the non-blank lines of a JSONL file. -/
def docsOf : List Line → List Json
  | [] => []
  | .doc j :: rest => j :: docsOf rest
  | _ :: rest => docsOf rest

/-- Anonymize a document sequence left to right, threading the mapping:
what a JSONL file's non-blank lines go through. -/
def anonDocs (docs : List Json) (m : Mapping) (fields : List String) :
    List Json × Mapping :=
  match docs with
  | [] => ([], m)
  | j :: rest =>
      let r := anonymize_dict j m fields
      let r2 := anonDocs rest r.2 fields
      (r.1 :: r2.1, r2.2)

/-- The invariant of every mapping the run can build: keys are unique,
and every entry's key is the digest of its stored original. -/
def WFmapping (m : Mapping) : Prop :=
  (m.map Prod.fst).Nodup ∧ ∀ p ∈ m, p.1 = hashString p.2

/-! ## Lookup and insert lemmas -/

theorem mlookup_append_some {m1 : Mapping} {k : String} {w : Json} (m2 : Mapping)
    (h : mlookup m1 k = some w) : mlookup (m1 ++ m2) k = some w := by
  induction m1 with
  | nil => simp [mlookup] at h
  | cons p rest ih =>
      obtain ⟨k1, v1⟩ := p
      by_cases hk : k1 = k
      · simp [mlookup, hk] at h ⊢; exact h
      · simp [mlookup, hk] at h ⊢; exact ih h

theorem mlookup_append_none {m1 : Mapping} {k : String} (m2 : Mapping)
    (h : mlookup m1 k = none) : mlookup (m1 ++ m2) k = mlookup m2 k := by
  induction m1 with
  | nil => simp [mlookup]
  | cons p rest ih =>
      obtain ⟨k1, v1⟩ := p
      by_cases hk : k1 = k
      · simp [mlookup, hk] at h
      · simp [mlookup, hk] at h ⊢; exact ih h

theorem mlookup_eq_none_iff {m : Mapping} {k : String} :
    mlookup m k = none ↔ k ∉ m.map Prod.fst := by
  induction m with
  | nil => simp [mlookup]
  | cons p rest ih =>
      obtain ⟨k1, v1⟩ := p
      by_cases hk : k1 = k
      · subst hk; simp [mlookup]
      · have h1 : mlookup ((k1, v1) :: rest) k = mlookup rest k := by
          simp [mlookup, hk]
        rw [h1, ih]
        simp only [List.map_cons, List.mem_cons]
        constructor
        · intro h hm
          rcases hm with he | hm2
          · exact hk he.symm
          · exact h hm2
        · intro h hm
          exact h (Or.inr hm)

theorem mlookup_mem {m : Mapping} {k : String} {w : Json}
    (h : mlookup m k = some w) : (k, w) ∈ m := by
  induction m with
  | nil => simp [mlookup] at h
  | cons p rest ih =>
      obtain ⟨k1, v1⟩ := p
      by_cases hk : k1 = k
      · simp [mlookup, hk] at h; simp [hk, h]
      · simp [mlookup, hk] at h; exact List.mem_cons_of_mem _ (ih h)

theorem insertIfAbsent_of_present {m : Mapping} {k : String} {w : Json} (v : Json)
    (h : mlookup m k = some w) : insertIfAbsent m k v = m := by
  simp [insertIfAbsent, h]

theorem insertIfAbsent_of_absent {m : Mapping} {k : String} (v : Json)
    (h : mlookup m k = none) : insertIfAbsent m k v = m ++ [(k, v)] := by
  simp [insertIfAbsent, h]

theorem insertIfAbsent_pres {m : Mapping} {x : String} {w : Json} (k : String) (v : Json)
    (h : mlookup m x = some w) : mlookup (insertIfAbsent m k v) x = some w := by
  unfold insertIfAbsent
  cases hm : mlookup m k with
  | none => exact mlookup_append_some _ h
  | some _ => exact h

theorem insertIfAbsent_self_ne_none (m : Mapping) (k : String) (v : Json) :
    mlookup (insertIfAbsent m k v) k ≠ none := by
  unfold insertIfAbsent
  cases hm : mlookup m k with
  | none => rw [mlookup_append_none _ hm]; simp [mlookup]
  | some w => simp [hm]

theorem insertIfAbsent_lookup_absent {m : Mapping} {k : String} (v : Json)
    (h : mlookup m k = none) : mlookup (insertIfAbsent m k v) k = some v := by
  rw [insertIfAbsent_of_absent v h, mlookup_append_none _ h]; simp [mlookup]

theorem insertIfAbsent_sound {m : Mapping} {k x : String} {v w : Json}
    (h : mlookup (insertIfAbsent m k v) x = some w) :
    mlookup m x = some w ∨ (x = k ∧ w = v) := by
  unfold insertIfAbsent at h
  cases hm : mlookup m k with
  | some _ => rw [hm] at h; exact Or.inl h
  | none =>
      rw [hm] at h
      cases hx : mlookup m x with
      | some u => rw [mlookup_append_some _ hx] at h; exact Or.inl h
      | none =>
          rw [mlookup_append_none _ hx] at h
          by_cases hxk : x = k
          · subst hxk; simp [mlookup] at h; exact Or.inr ⟨rfl, h.symm⟩
          · simp [mlookup, Ne.symm hxk] at h

theorem insertIfAbsent_idem (m : Mapping) (k : String) (v v' : Json) :
    insertIfAbsent (insertIfAbsent m k v) k v' = insertIfAbsent m k v := by
  cases hm : mlookup m k with
  | some w =>
      rw [insertIfAbsent_of_present v hm]
      exact insertIfAbsent_of_present v' hm
  | none =>
      exact insertIfAbsent_of_present v' (insertIfAbsent_lookup_absent v hm)

theorem insertIfAbsent_length (m : Mapping) (k : String) (v : Json) :
    (insertIfAbsent m k v).length =
      if mlookup m k = none then m.length + 1 else m.length := by
  cases hm : mlookup m k with
  | none => simp [insertIfAbsent_of_absent v hm, hm]
  | some w => simp [insertIfAbsent_of_present v hm, hm]

theorem insertIfAbsent_WF {m : Mapping} (v : Json) (hw : WFmapping m) :
    WFmapping (insertIfAbsent m (hashString v) v) := by
  cases hm : mlookup m (hashString v) with
  | some w => rw [insertIfAbsent_of_present v hm]; exact hw
  | none =>
      rw [insertIfAbsent_of_absent v hm]
      obtain ⟨hnd, hkeys⟩ := hw
      constructor
      · rw [List.map_append, List.nodup_append]
        refine ⟨hnd, by simp, ?_⟩
        intro x hx
        simp only [List.map_cons, List.map_nil, List.mem_singleton]
        intro hxe
        subst hxe
        exact (mlookup_eq_none_iff.mp hm) hx
      · intro p hp
        rcases List.mem_append.mp hp with h1 | h1
        · exact hkeys p h1
        · simp at h1; subst h1; rfl

/-! ## Step lemmas for the anonymizer -/

theorem anonymize_dict_obj (es : List (String × Json)) (m : Mapping) (fields : List String) :
    anonymize_dict (.obj es) m fields =
      (.obj (anonEntries es m fields).1, (anonEntries es m fields).2) :=
  anonymize_dict.eq_1 m fields es

theorem anonymize_dict_nonobj {j : Json} (m : Mapping) (fields : List String)
    (h : j.isObjB = false) : anonymize_dict j m fields = (j, m) := by
  cases j with
  | obj es => simp [Json.isObjB] at h
  | null => exact anonymize_dict.eq_2 _ m fields (fun _ h2 => by cases h2)
  | bool b => exact anonymize_dict.eq_2 _ m fields (fun _ h2 => by cases h2)
  | num n => exact anonymize_dict.eq_2 _ m fields (fun _ h2 => by cases h2)
  | str s => exact anonymize_dict.eq_2 _ m fields (fun _ h2 => by cases h2)
  | arr xs => exact anonymize_dict.eq_2 _ m fields (fun _ h2 => by cases h2)

theorem anonEntries_cons_sensitive {k : String} {v : Json} {fields : List String}
    (rest : List (String × Json)) (m : Mapping)
    (hc1 : k ∈ fields) (hc2 : v.isNull = false) :
    anonEntries ((k, v) :: rest) m fields =
      ((k, .str (hashString v)) ::
         (anonEntries rest (insertIfAbsent m (hashString v) v) fields).1,
       (anonEntries rest (insertIfAbsent m (hashString v) v) fields).2) := by
  cases v with
  | null => simp [Json.isNull] at hc2
  | obj oes => rw [anonEntries.eq_2 m fields k rest oes, if_pos ⟨hc1, hc2⟩]
  | arr items => rw [anonEntries.eq_3 m fields k rest items, if_pos ⟨hc1, hc2⟩]
  | bool b =>
      rw [anonEntries.eq_4 m fields k (Json.bool b) rest
            (fun _ h2 => by cases h2) (fun _ h2 => by cases h2), if_pos ⟨hc1, hc2⟩]
  | num n =>
      rw [anonEntries.eq_4 m fields k (Json.num n) rest
            (fun _ h2 => by cases h2) (fun _ h2 => by cases h2), if_pos ⟨hc1, hc2⟩]
  | str s =>
      rw [anonEntries.eq_4 m fields k (Json.str s) rest
            (fun _ h2 => by cases h2) (fun _ h2 => by cases h2), if_pos ⟨hc1, hc2⟩]

theorem anonEntries_cons_obj {k : String} {fields : List String}
    (oes rest : List (String × Json)) (m : Mapping) (hk : k ∉ fields) :
    anonEntries ((k, .obj oes) :: rest) m fields =
      ((k, .obj (anonEntries oes m fields).1) ::
         (anonEntries rest (anonEntries oes m fields).2 fields).1,
       (anonEntries rest (anonEntries oes m fields).2 fields).2) := by
  rw [anonEntries.eq_2 m fields k rest oes, if_neg (fun hc => hk hc.1)]
  simp only [anonymize_dict.eq_1]

theorem anonEntries_cons_arr {k : String} {fields : List String}
    (items : List Json) (rest : List (String × Json)) (m : Mapping)
    (hk : k ∉ fields) :
    anonEntries ((k, .arr items) :: rest) m fields =
      ((k, .arr (anonItems items m fields).1) ::
         (anonEntries rest (anonItems items m fields).2 fields).1,
       (anonEntries rest (anonItems items m fields).2 fields).2) := by
  rw [anonEntries.eq_3 m fields k rest items, if_neg (fun hc => hk hc.1)]

theorem anonEntries_cons_null (k : String) (rest : List (String × Json))
    (m : Mapping) (fields : List String) :
    anonEntries ((k, .null) :: rest) m fields =
      ((k, .null) :: (anonEntries rest m fields).1, (anonEntries rest m fields).2) := by
  rw [anonEntries.eq_4 m fields k Json.null rest
        (fun _ h2 => by cases h2) (fun _ h2 => by cases h2),
      if_neg (fun hc => Bool.noConfusion hc.2)]

theorem anonEntries_cons_other (v : Json) {k : String} {fields : List String}
    (rest : List (String × Json)) (m : Mapping)
    (hk : k ∉ fields) (hobj : v.isObjB = false) (harr : v.isArrB = false) :
    anonEntries ((k, v) :: rest) m fields =
      ((k, v) :: (anonEntries rest m fields).1, (anonEntries rest m fields).2) := by
  cases v with
  | obj oes => simp [Json.isObjB] at hobj
  | arr items => simp [Json.isArrB] at harr
  | null =>
      rw [anonEntries.eq_4 m fields k Json.null rest
            (fun _ h2 => by cases h2) (fun _ h2 => by cases h2),
          if_neg (fun hc => Bool.noConfusion hc.2)]
  | bool b =>
      rw [anonEntries.eq_4 m fields k (Json.bool b) rest
            (fun _ h2 => by cases h2) (fun _ h2 => by cases h2),
          if_neg (fun hc => hk hc.1)]
  | num n =>
      rw [anonEntries.eq_4 m fields k (Json.num n) rest
            (fun _ h2 => by cases h2) (fun _ h2 => by cases h2),
          if_neg (fun hc => hk hc.1)]
  | str s =>
      rw [anonEntries.eq_4 m fields k (Json.str s) rest
            (fun _ h2 => by cases h2) (fun _ h2 => by cases h2),
          if_neg (fun hc => hk hc.1)]

theorem anonItems_cons_obj (oes : List (String × Json)) (rest : List Json)
    (m : Mapping) (fields : List String) :
    anonItems (.obj oes :: rest) m fields =
      (.obj (anonEntries oes m fields).1 ::
         (anonItems rest (anonEntries oes m fields).2 fields).1,
       (anonItems rest (anonEntries oes m fields).2 fields).2) := by
  rw [anonItems.eq_2 m fields rest oes]
  simp only [anonymize_dict.eq_1]

theorem anonItems_cons_other (v : Json) (rest : List Json) (m : Mapping)
    (fields : List String) (hobj : v.isObjB = false) :
    anonItems (v :: rest) m fields =
      (v :: (anonItems rest m fields).1, (anonItems rest m fields).2) := by
  cases v with
  | obj oes => simp [Json.isObjB] at hobj
  | null => exact anonItems.eq_3 m fields _ rest (fun _ h2 => by cases h2)
  | bool b => exact anonItems.eq_3 m fields _ rest (fun _ h2 => by cases h2)
  | num n => exact anonItems.eq_3 m fields _ rest (fun _ h2 => by cases h2)
  | str s => exact anonItems.eq_3 m fields _ rest (fun _ h2 => by cases h2)
  | arr xs => exact anonItems.eq_3 m fields _ rest (fun _ h2 => by cases h2)

/-! ## Step lemmas for the spec-side transform -/

theorem specEntries_cons (fields : List String) (k : String) (v : Json)
    (rest : List (String × Json)) :
    specEntries fields ((k, v) :: rest) =
      (k, specEntry fields k v) :: specEntries fields rest := by
  rw [specEntries]

theorem specEntry_sensitive {k : String} {v : Json} {fields : List String}
    (hc1 : k ∈ fields) (hc2 : v.isNull = false) :
    specEntry fields k v = .str (hashString v) := by
  cases v with
  | null => simp [Json.isNull] at hc2
  | obj oes => rw [specEntry, if_pos ⟨hc1, hc2⟩]
  | arr items => rw [specEntry, if_pos ⟨hc1, hc2⟩]
  | bool b =>
      rw [specEntry, if_pos ⟨hc1, hc2⟩]
      all_goals (intro _ h2; cases h2)
  | num n =>
      rw [specEntry, if_pos ⟨hc1, hc2⟩]
      all_goals (intro _ h2; cases h2)
  | str s =>
      rw [specEntry, if_pos ⟨hc1, hc2⟩]
      all_goals (intro _ h2; cases h2)

theorem specEntry_obj {k : String} {fields : List String}
    (oes : List (String × Json)) (hk : k ∉ fields) :
    specEntry fields k (.obj oes) = .obj (specEntries fields oes) := by
  rw [specEntry, if_neg (fun hc => hk hc.1)]

theorem specEntry_arr {k : String} {fields : List String}
    (items : List Json) (hk : k ∉ fields) :
    specEntry fields k (.arr items) = .arr (specItems fields items) := by
  rw [specEntry, if_neg (fun hc => hk hc.1)]

theorem specEntry_null (fields : List String) (k : String) :
    specEntry fields k .null = .null := by
  rw [specEntry, if_neg (fun hc => Bool.noConfusion hc.2)]
  all_goals (intro _ h2; cases h2)

theorem specEntry_other (v : Json) {k : String} {fields : List String}
    (hk : k ∉ fields) (hobj : v.isObjB = false) (harr : v.isArrB = false) :
    specEntry fields k v = v := by
  cases v with
  | obj oes => simp [Json.isObjB] at hobj
  | arr items => simp [Json.isArrB] at harr
  | null => exact specEntry_null fields k
  | bool b =>
      rw [specEntry, if_neg (fun hc => hk hc.1)]
      all_goals (intro _ h2; cases h2)
  | num n =>
      rw [specEntry, if_neg (fun hc => hk hc.1)]
      all_goals (intro _ h2; cases h2)
  | str s =>
      rw [specEntry, if_neg (fun hc => hk hc.1)]
      all_goals (intro _ h2; cases h2)

theorem specItems_cons_obj (fields : List String) (oes : List (String × Json))
    (rest : List Json) :
    specItems fields (.obj oes :: rest) =
      .obj (specEntries fields oes) :: specItems fields rest := by
  rw [specItems]

theorem specItems_cons_other (v : Json) (fields : List String) (rest : List Json)
    (hobj : v.isObjB = false) :
    specItems fields (v :: rest) = v :: specItems fields rest := by
  cases v with
  | obj oes => simp [Json.isObjB] at hobj
  | null =>
      rw [specItems]
      all_goals (intro _ h2; cases h2)
  | bool b =>
      rw [specItems]
      all_goals (intro _ h2; cases h2)
  | num n =>
      rw [specItems]
      all_goals (intro _ h2; cases h2)
  | str s =>
      rw [specItems]
      all_goals (intro _ h2; cases h2)
  | arr xs =>
      rw [specItems]
      all_goals (intro _ h2; cases h2)

/-! ## The anonymized output is mapping-independent and matches the
spec-side transform -/

mutual

theorem anonEntries_fst : ∀ (es : List (String × Json)) (m : Mapping) (fields : List String),
    (anonEntries es m fields).1 = specEntries fields es
  | [], m, fields => by rw [anonEntries.eq_1, specEntries]
  | (k, v) :: rest, m, fields => by
      by_cases hc : k ∈ fields ∧ v.isNull = false
      · rw [anonEntries_cons_sensitive rest m hc.1 hc.2, specEntries_cons,
            specEntry_sensitive hc.1 hc.2, anonEntries_fst rest _ fields]
      · cases v with
        | obj oes =>
            have hk : k ∉ fields := fun hmem => hc ⟨hmem, rfl⟩
            rw [anonEntries_cons_obj oes rest m hk, specEntries_cons,
                specEntry_obj oes hk, anonEntries_fst oes m fields,
                anonEntries_fst rest _ fields]
        | arr items =>
            have hk : k ∉ fields := fun hmem => hc ⟨hmem, rfl⟩
            rw [anonEntries_cons_arr items rest m hk, specEntries_cons,
                specEntry_arr items hk, anonItems_fst items m fields,
                anonEntries_fst rest _ fields]
        | null =>
            rw [anonEntries_cons_null k rest m fields, specEntries_cons,
                specEntry_null fields k, anonEntries_fst rest m fields]
        | bool b =>
            have hk : k ∉ fields := fun hmem => hc ⟨hmem, rfl⟩
            rw [anonEntries_cons_other (Json.bool b) rest m hk rfl rfl, specEntries_cons,
                specEntry_other (Json.bool b) hk rfl rfl, anonEntries_fst rest m fields]
        | num n =>
            have hk : k ∉ fields := fun hmem => hc ⟨hmem, rfl⟩
            rw [anonEntries_cons_other (Json.num n) rest m hk rfl rfl, specEntries_cons,
                specEntry_other (Json.num n) hk rfl rfl, anonEntries_fst rest m fields]
        | str s =>
            have hk : k ∉ fields := fun hmem => hc ⟨hmem, rfl⟩
            rw [anonEntries_cons_other (Json.str s) rest m hk rfl rfl, specEntries_cons,
                specEntry_other (Json.str s) hk rfl rfl, anonEntries_fst rest m fields]
  termination_by es => sizeOf es

theorem anonItems_fst : ∀ (items : List Json) (m : Mapping) (fields : List String),
    (anonItems items m fields).1 = specItems fields items
  | [], m, fields => by rw [anonItems.eq_1, specItems]
  | item :: rest, m, fields => by
      cases item with
      | obj oes =>
          rw [anonItems_cons_obj oes rest m fields, specItems_cons_obj,
              anonEntries_fst oes m fields, anonItems_fst rest _ fields]
      | null =>
          rw [anonItems_cons_other Json.null rest m fields rfl,
              specItems_cons_other Json.null fields rest rfl, anonItems_fst rest m fields]
      | bool b =>
          rw [anonItems_cons_other (Json.bool b) rest m fields rfl,
              specItems_cons_other (Json.bool b) fields rest rfl, anonItems_fst rest m fields]
      | num n =>
          rw [anonItems_cons_other (Json.num n) rest m fields rfl,
              specItems_cons_other (Json.num n) fields rest rfl, anonItems_fst rest m fields]
      | str s =>
          rw [anonItems_cons_other (Json.str s) rest m fields rfl,
              specItems_cons_other (Json.str s) fields rest rfl, anonItems_fst rest m fields]
      | arr xs =>
          rw [anonItems_cons_other (Json.arr xs) rest m fields rfl,
              specItems_cons_other (Json.arr xs) fields rest rfl, anonItems_fst rest m fields]
  termination_by items => sizeOf items

end

/-! ## The anonymizer only ever extends the mapping (first-write-wins) -/

mutual

theorem anonEntries_pres : ∀ (es : List (String × Json)) (m : Mapping) (fields : List String)
    (x : String) (w : Json), mlookup m x = some w →
    mlookup (anonEntries es m fields).2 x = some w
  | [], m, fields, x, w => fun h => by rw [anonEntries.eq_1]; exact h
  | (k, v) :: rest, m, fields, x, w => fun h => by
      by_cases hc : k ∈ fields ∧ v.isNull = false
      · rw [anonEntries_cons_sensitive rest m hc.1 hc.2]
        exact anonEntries_pres rest _ fields x w (insertIfAbsent_pres _ _ h)
      · cases v with
        | obj oes =>
            have hk : k ∉ fields := fun hmem => hc ⟨hmem, rfl⟩
            rw [anonEntries_cons_obj oes rest m hk]
            exact anonEntries_pres rest _ fields x w (anonEntries_pres oes m fields x w h)
        | arr items =>
            have hk : k ∉ fields := fun hmem => hc ⟨hmem, rfl⟩
            rw [anonEntries_cons_arr items rest m hk]
            exact anonEntries_pres rest _ fields x w (anonItems_pres items m fields x w h)
        | null =>
            rw [anonEntries_cons_null k rest m fields]
            exact anonEntries_pres rest m fields x w h
        | bool b =>
            have hk : k ∉ fields := fun hmem => hc ⟨hmem, rfl⟩
            rw [anonEntries_cons_other (Json.bool b) rest m hk rfl rfl]
            exact anonEntries_pres rest m fields x w h
        | num n =>
            have hk : k ∉ fields := fun hmem => hc ⟨hmem, rfl⟩
            rw [anonEntries_cons_other (Json.num n) rest m hk rfl rfl]
            exact anonEntries_pres rest m fields x w h
        | str s =>
            have hk : k ∉ fields := fun hmem => hc ⟨hmem, rfl⟩
            rw [anonEntries_cons_other (Json.str s) rest m hk rfl rfl]
            exact anonEntries_pres rest m fields x w h
  termination_by es => sizeOf es

theorem anonItems_pres : ∀ (items : List Json) (m : Mapping) (fields : List String)
    (x : String) (w : Json), mlookup m x = some w →
    mlookup (anonItems items m fields).2 x = some w
  | [], m, fields, x, w => fun h => by rw [anonItems.eq_1]; exact h
  | item :: rest, m, fields, x, w => fun h => by
      cases item with
      | obj oes =>
          rw [anonItems_cons_obj oes rest m fields]
          exact anonItems_pres rest _ fields x w (anonEntries_pres oes m fields x w h)
      | null =>
          rw [anonItems_cons_other Json.null rest m fields rfl]
          exact anonItems_pres rest m fields x w h
      | bool b =>
          rw [anonItems_cons_other (Json.bool b) rest m fields rfl]
          exact anonItems_pres rest m fields x w h
      | num n =>
          rw [anonItems_cons_other (Json.num n) rest m fields rfl]
          exact anonItems_pres rest m fields x w h
      | str s =>
          rw [anonItems_cons_other (Json.str s) rest m fields rfl]
          exact anonItems_pres rest m fields x w h
      | arr xs =>
          rw [anonItems_cons_other (Json.arr xs) rest m fields rfl]
          exact anonItems_pres rest m fields x w h
  termination_by items => sizeOf items

end

theorem anonEntries_pres_ne (es : List (String × Json)) (m : Mapping)
    (fields : List String) (x : String) (h : mlookup m x ≠ none) :
    mlookup (anonEntries es m fields).2 x ≠ none := by
  cases hm : mlookup m x with
  | none => exact absurd hm h
  | some w => rw [anonEntries_pres es m fields x w hm]; simp

/-! ## Every mapping entry the anonymizer adds is digest-keyed -/

mutual

theorem anonEntries_sound : ∀ (es : List (String × Json)) (m : Mapping) (fields : List String)
    (x : String) (w : Json), mlookup (anonEntries es m fields).2 x = some w →
    mlookup m x = some w ∨ x = hashString w
  | [], m, fields, x, w => fun h => by rw [anonEntries.eq_1] at h; exact Or.inl h
  | (k, v) :: rest, m, fields, x, w => fun h => by
      by_cases hc : k ∈ fields ∧ v.isNull = false
      · rw [anonEntries_cons_sensitive rest m hc.1 hc.2] at h
        rcases anonEntries_sound rest _ fields x w h with h1 | h1
        · rcases insertIfAbsent_sound h1 with h2 | ⟨hx, hw⟩
          · exact Or.inl h2
          · subst hw; exact Or.inr hx
        · exact Or.inr h1
      · cases v with
        | obj oes =>
            have hk : k ∉ fields := fun hmem => hc ⟨hmem, rfl⟩
            rw [anonEntries_cons_obj oes rest m hk] at h
            rcases anonEntries_sound rest _ fields x w h with h1 | h1
            · exact anonEntries_sound oes m fields x w h1
            · exact Or.inr h1
        | arr items =>
            have hk : k ∉ fields := fun hmem => hc ⟨hmem, rfl⟩
            rw [anonEntries_cons_arr items rest m hk] at h
            rcases anonEntries_sound rest _ fields x w h with h1 | h1
            · exact anonItems_sound items m fields x w h1
            · exact Or.inr h1
        | null =>
            rw [anonEntries_cons_null k rest m fields] at h
            exact anonEntries_sound rest m fields x w h
        | bool b =>
            have hk : k ∉ fields := fun hmem => hc ⟨hmem, rfl⟩
            rw [anonEntries_cons_other (Json.bool b) rest m hk rfl rfl] at h
            exact anonEntries_sound rest m fields x w h
        | num n =>
            have hk : k ∉ fields := fun hmem => hc ⟨hmem, rfl⟩
            rw [anonEntries_cons_other (Json.num n) rest m hk rfl rfl] at h
            exact anonEntries_sound rest m fields x w h
        | str s =>
            have hk : k ∉ fields := fun hmem => hc ⟨hmem, rfl⟩
            rw [anonEntries_cons_other (Json.str s) rest m hk rfl rfl] at h
            exact anonEntries_sound rest m fields x w h
  termination_by es => sizeOf es

theorem anonItems_sound : ∀ (items : List Json) (m : Mapping) (fields : List String)
    (x : String) (w : Json), mlookup (anonItems items m fields).2 x = some w →
    mlookup m x = some w ∨ x = hashString w
  | [], m, fields, x, w => fun h => by rw [anonItems.eq_1] at h; exact Or.inl h
  | item :: rest, m, fields, x, w => fun h => by
      cases item with
      | obj oes =>
          rw [anonItems_cons_obj oes rest m fields] at h
          rcases anonItems_sound rest _ fields x w h with h1 | h1
          · exact anonEntries_sound oes m fields x w h1
          · exact Or.inr h1
      | null =>
          rw [anonItems_cons_other Json.null rest m fields rfl] at h
          exact anonItems_sound rest m fields x w h
      | bool b =>
          rw [anonItems_cons_other (Json.bool b) rest m fields rfl] at h
          exact anonItems_sound rest m fields x w h
      | num n =>
          rw [anonItems_cons_other (Json.num n) rest m fields rfl] at h
          exact anonItems_sound rest m fields x w h
      | str s =>
          rw [anonItems_cons_other (Json.str s) rest m fields rfl] at h
          exact anonItems_sound rest m fields x w h
      | arr xs =>
          rw [anonItems_cons_other (Json.arr xs) rest m fields rfl] at h
          exact anonItems_sound rest m fields x w h
  termination_by items => sizeOf items

end

/-! ## The anonymizer preserves mapping well-formedness -/

mutual

theorem anonEntries_WF : ∀ (es : List (String × Json)) (m : Mapping) (fields : List String),
    WFmapping m → WFmapping (anonEntries es m fields).2
  | [], m, fields => fun hw => by rw [anonEntries.eq_1]; exact hw
  | (k, v) :: rest, m, fields => fun hw => by
      by_cases hc : k ∈ fields ∧ v.isNull = false
      · rw [anonEntries_cons_sensitive rest m hc.1 hc.2]
        exact anonEntries_WF rest _ fields (insertIfAbsent_WF v hw)
      · cases v with
        | obj oes =>
            have hk : k ∉ fields := fun hmem => hc ⟨hmem, rfl⟩
            rw [anonEntries_cons_obj oes rest m hk]
            exact anonEntries_WF rest _ fields (anonEntries_WF oes m fields hw)
        | arr items =>
            have hk : k ∉ fields := fun hmem => hc ⟨hmem, rfl⟩
            rw [anonEntries_cons_arr items rest m hk]
            exact anonEntries_WF rest _ fields (anonItems_WF items m fields hw)
        | null =>
            rw [anonEntries_cons_null k rest m fields]
            exact anonEntries_WF rest m fields hw
        | bool b =>
            have hk : k ∉ fields := fun hmem => hc ⟨hmem, rfl⟩
            rw [anonEntries_cons_other (Json.bool b) rest m hk rfl rfl]
            exact anonEntries_WF rest m fields hw
        | num n =>
            have hk : k ∉ fields := fun hmem => hc ⟨hmem, rfl⟩
            rw [anonEntries_cons_other (Json.num n) rest m hk rfl rfl]
            exact anonEntries_WF rest m fields hw
        | str s =>
            have hk : k ∉ fields := fun hmem => hc ⟨hmem, rfl⟩
            rw [anonEntries_cons_other (Json.str s) rest m hk rfl rfl]
            exact anonEntries_WF rest m fields hw
  termination_by es => sizeOf es

theorem anonItems_WF : ∀ (items : List Json) (m : Mapping) (fields : List String),
    WFmapping m → WFmapping (anonItems items m fields).2
  | [], m, fields => fun hw => by rw [anonItems.eq_1]; exact hw
  | item :: rest, m, fields => fun hw => by
      cases item with
      | obj oes =>
          rw [anonItems_cons_obj oes rest m fields]
          exact anonItems_WF rest _ fields (anonEntries_WF oes m fields hw)
      | null =>
          rw [anonItems_cons_other Json.null rest m fields rfl]
          exact anonItems_WF rest m fields hw
      | bool b =>
          rw [anonItems_cons_other (Json.bool b) rest m fields rfl]
          exact anonItems_WF rest m fields hw
      | num n =>
          rw [anonItems_cons_other (Json.num n) rest m fields rfl]
          exact anonItems_WF rest m fields hw
      | str s =>
          rw [anonItems_cons_other (Json.str s) rest m fields rfl]
          exact anonItems_WF rest m fields hw
      | arr xs =>
          rw [anonItems_cons_other (Json.arr xs) rest m fields rfl]
          exact anonItems_WF rest m fields hw
  termination_by items => sizeOf items

end

/-! ## Every sensitive entry's digest ends up as a mapping key -/

theorem anonEntries_cover (es : List (String × Json)) :
    ∀ (m : Mapping) (fields : List String) (k : String) (v : Json),
    (k, v) ∈ es → k ∈ fields → v.isNull = false →
    mlookup (anonEntries es m fields).2 (hashString v) ≠ none := by
  induction es with
  | nil => intro m fields k v hmem _ _; simp at hmem
  | cons p rest ih =>
      obtain ⟨k0, v0⟩ := p
      intro m fields k v hmem hkf hnn
      rcases List.mem_cons.mp hmem with heq | hmem2
      · cases heq
        rw [anonEntries_cons_sensitive rest m hkf hnn]
        exact anonEntries_pres_ne rest _ fields _ (insertIfAbsent_self_ne_none m _ v0)
      · by_cases hc : k0 ∈ fields ∧ v0.isNull = false
        · rw [anonEntries_cons_sensitive rest m hc.1 hc.2]
          exact ih _ fields k v hmem2 hkf hnn
        · cases v0 with
          | obj oes =>
              have hk : k0 ∉ fields := fun hm2 => hc ⟨hm2, rfl⟩
              rw [anonEntries_cons_obj oes rest m hk]
              exact ih _ fields k v hmem2 hkf hnn
          | arr items =>
              have hk : k0 ∉ fields := fun hm2 => hc ⟨hm2, rfl⟩
              rw [anonEntries_cons_arr items rest m hk]
              exact ih _ fields k v hmem2 hkf hnn
          | null =>
              rw [anonEntries_cons_null k0 rest m fields]
              exact ih _ fields k v hmem2 hkf hnn
          | bool b =>
              have hk : k0 ∉ fields := fun hm2 => hc ⟨hm2, rfl⟩
              rw [anonEntries_cons_other (Json.bool b) rest m hk rfl rfl]
              exact ih _ fields k v hmem2 hkf hnn
          | num n =>
              have hk : k0 ∉ fields := fun hm2 => hc ⟨hm2, rfl⟩
              rw [anonEntries_cons_other (Json.num n) rest m hk rfl rfl]
              exact ih _ fields k v hmem2 hkf hnn
          | str s =>
              have hk : k0 ∉ fields := fun hm2 => hc ⟨hm2, rfl⟩
              rw [anonEntries_cons_other (Json.str s) rest m hk rfl rfl]
              exact ih _ fields k v hmem2 hkf hnn

/-! ## Key preservation -/

theorem specEntries_as_map (fields : List String) (es : List (String × Json)) :
    specEntries fields es = es.map (fun p => (p.1, specEntry fields p.1 p.2)) := by
  induction es with
  | nil => rw [specEntries]; rfl
  | cons p rest ih =>
      obtain ⟨k, v⟩ := p
      rw [specEntries_cons, ih]
      rfl

theorem anonEntries_keys (es : List (String × Json)) (m : Mapping) (fields : List String) :
    (anonEntries es m fields).1.map Prod.fst = es.map Prod.fst := by
  rw [anonEntries_fst es m fields, specEntries_as_map, List.map_map]
  rfl

/-! ## JSONL processing lemmas -/

/-- `line.strip()` is truthy: the line is processed. -/
def Line.nonBlank : Line → Bool
  | .blank => false
  | _ => true

theorem docsOf_length_eq_nonBlank {lines : List Line}
    (h : ∀ l ∈ lines, l ≠ Line.malformed) :
    (docsOf lines).length = (lines.filter Line.nonBlank).length := by
  induction lines with
  | nil => rfl
  | cons l rest ih =>
      have hrest : ∀ x ∈ rest, x ≠ Line.malformed :=
        fun x hx => h x (List.mem_cons_of_mem _ hx)
      cases l with
      | blank => simp [docsOf, Line.nonBlank, ih hrest]
      | doc j => simp [docsOf, Line.nonBlank, ih hrest]
      | malformed => exact absurd rfl (h _ (List.mem_cons_self _ _))

theorem process_jsonl_ok {lines : List Line} (m : Mapping) (fields : List String)
    (h : ∀ l ∈ lines, l ≠ Line.malformed) :
    process_jsonl_file lines m fields =
      .ok ((anonDocs (docsOf lines) m fields).1,
           (anonDocs (docsOf lines) m fields).2,
           (docsOf lines).length) := by
  induction lines generalizing m with
  | nil => rfl
  | cons l rest ih =>
      have hrest : ∀ x ∈ rest, x ≠ Line.malformed :=
        fun x hx => h x (List.mem_cons_of_mem _ hx)
      cases l with
      | blank => simpa [process_jsonl_file, docsOf] using ih m hrest
      | doc j =>
          simp only [process_jsonl_file, docsOf, anonDocs]
          rw [ih _ hrest]
          rfl
      | malformed => exact absurd rfl (h _ (List.mem_cons_self _ _))

theorem process_jsonl_error {pre : List Line} (post : List Line) (m : Mapping)
    (fields : List String) (h : ∀ l ∈ pre, l ≠ Line.malformed) :
    process_jsonl_file (pre ++ Line.malformed :: post) m fields =
      .error (anonDocs (docsOf pre) m fields).2 := by
  induction pre generalizing m with
  | nil => rfl
  | cons l rest ih =>
      have hrest : ∀ x ∈ rest, x ≠ Line.malformed :=
        fun x hx => h x (List.mem_cons_of_mem _ hx)
      cases l with
      | blank => simpa [process_jsonl_file, docsOf] using ih m hrest
      | doc j =>
          rw [List.cons_append]
          simp only [process_jsonl_file, docsOf, anonDocs]
          rw [ih _ hrest]
      | malformed => exact absurd rfl (h _ (List.mem_cons_self _ _))

/-! ## Reverse-mapping lemmas -/

theorem pyEq_refl (v : Json) : pyEq v v = true := by
  cases v with
  | bool b => simp [pyEq, pyKeyNum]
  | num n => simp [pyEq, pyKeyNum]
  | null => rfl
  | str s => simp [pyEq, pyKeyNum, (Json.beq_iff (Json.str s) (Json.str s)).mpr rfl]
  | arr xs => simp [pyEq, pyKeyNum, (Json.beq_iff (Json.arr xs) (Json.arr xs)).mpr rfl]
  | obj es => simp [pyEq, pyKeyNum, (Json.beq_iff (Json.obj es) (Json.obj es)).mpr rfl]

theorem PyDistinct_tail {p : String × Json} {rest : Mapping}
    (h : PyDistinct (p :: rest)) : PyDistinct rest := by
  have h2 := h
  rw [PyDistinct, List.map_cons, List.pairwise_cons] at h2
  exact h2.2

theorem PyDistinct_head {p : String × Json} {rest : Mapping}
    (h : PyDistinct (p :: rest)) :
    ∀ q ∈ rest, pyEq p.2 q.2 = false := by
  have h2 := h
  rw [PyDistinct, List.map_cons, List.pairwise_cons] at h2
  intro q hq
  exact h2.1 q.2 (List.mem_map_of_mem Prod.snd hq)

theorem rlookup_append_none {l1 : List (Json × String)} {x : Json}
    (l2 : List (Json × String)) (h : rlookup l1 x = none) :
    rlookup (l1 ++ l2) x = rlookup l2 x := by
  induction l1 with
  | nil => simp [rlookup]
  | cons p rest ih =>
      obtain ⟨k1, v1⟩ := p
      by_cases hk : pyEq k1 x = true
      · simp [rlookup, hk] at h
      · simp [rlookup, hk] at h ⊢; exact ih h

theorem reverseMappingGo_eq : ∀ (m : Mapping) (acc : List (Json × String)),
    HashableVals m → (∀ p ∈ m, rlookup acc p.2 = none) → PyDistinct m →
    reverseMappingGo acc m = .ok (acc ++ m.map (fun p => (p.2, p.1))) := by
  intro m
  induction m with
  | nil => intro acc _ _ _; simp [reverseMappingGo]
  | cons p rest ih =>
      obtain ⟨h0, v0⟩ := p
      intro acc hhash hfresh hdist
      have hd : dictInsert acc v0 h0 = .ok (acc ++ [(v0, h0)]) := by
        rw [dictInsert, if_pos (hhash (h0, v0) (List.mem_cons_self _ _)),
            hfresh (h0, v0) (List.mem_cons_self _ _)]
      have hfresh2 : ∀ q ∈ rest, rlookup (acc ++ [(v0, h0)]) q.2 = none := by
        intro q hq
        have hqm : rlookup acc q.2 = none := hfresh q (List.mem_cons_of_mem _ hq)
        rw [rlookup_append_none _ hqm]
        have hne : pyEq v0 q.2 = false := PyDistinct_head hdist q hq
        simp [rlookup, hne]
      have hhash2 : HashableVals rest :=
        fun q hq => hhash q (List.mem_cons_of_mem _ hq)
      rw [reverseMappingGo, hd]
      show reverseMappingGo (acc ++ [(v0, h0)]) rest = _
      rw [ih _ hhash2 hfresh2 (PyDistinct_tail hdist), List.append_assoc]
      rfl

theorem reverseMapping_eq {m : Mapping} (hhash : HashableVals m)
    (hdist : PyDistinct m) :
    reverseMapping m = .ok (m.map (fun p => (p.2, p.1))) := by
  have h := reverseMappingGo_eq m [] hhash (fun p _ => rfl) hdist
  simpa [reverseMapping] using h

theorem rev_forward {m : Mapping} (hdist : PyDistinct m) {h : String} {v : Json}
    (hl : mlookup m h = some v) :
    rlookup (m.map (fun p => (p.2, p.1))) v = some h := by
  induction m with
  | nil => simp [mlookup] at hl
  | cons p rest ih =>
      obtain ⟨k0, w0⟩ := p
      by_cases hk : k0 = h
      · subst hk
        simp [mlookup] at hl
        subst hl
        simp [rlookup, pyEq_refl]
      · have hl2 : mlookup rest h = some v := by
          simpa [mlookup, hk] using hl
        have hne : pyEq w0 v = false :=
          PyDistinct_head hdist (h, v) (mlookup_mem hl2)
        simp only [List.map_cons, rlookup, hne, Bool.false_eq_true, if_false]
        exact ih (PyDistinct_tail hdist) hl2

theorem rev_backward {m : Mapping} (hnd : (m.map Prod.fst).Nodup)
    {v : Json} {h : String}
    (hl : rlookup (m.map (fun p => (p.2, p.1))) v = some h) :
    ∃ w, mlookup m h = some w ∧ pyEq w v = true := by
  induction m with
  | nil => simp [rlookup] at hl
  | cons p rest ih =>
      obtain ⟨k0, w0⟩ := p
      by_cases hv : pyEq w0 v = true
      · simp [rlookup, hv] at hl
        subst hl
        exact ⟨w0, by simp [mlookup], hv⟩
      · have hl2 : rlookup (rest.map (fun p => (p.2, p.1))) v = some h := by
          simpa [rlookup, hv] using hl
        obtain ⟨w, hw1, hw2⟩ := ih (List.nodup_cons.mp hnd).2 hl2
        have hne : k0 ≠ h := by
          intro he
          have h4 : k0 ∉ rest.map Prod.fst := (List.nodup_cons.mp hnd).1
          exact h4 (he ▸ List.mem_map_of_mem Prod.fst (mlookup_mem hw1))
        refine ⟨w, ?_, hw2⟩
        simp only [mlookup, if_neg hne]
        exact hw1

/-! ## Hex digest shape -/

theorem hexChar_mem_of_lt : ∀ n, n < 16 → hexChar n ∈ "0123456789abcdef".data := by
  decide

theorem toHex8_chars (w : Nat) : ∀ c ∈ toHex8 w, c ∈ "0123456789abcdef".data := by
  intro c hc
  simp only [toHex8, List.mem_cons, List.not_mem_nil, or_false] at hc
  rcases hc with h|h|h|h|h|h|h|h <;> subst h <;>
    exact hexChar_mem_of_lt _ (Nat.mod_lt _ (by norm_num))

theorem sha256Hex_length (msg : List Nat) : (sha256Hex msg).length = 64 := rfl

theorem sha256Hex_chars (msg : List Nat) :
    ∀ c ∈ (sha256Hex msg).data, c ∈ "0123456789abcdef".data := by
  intro c hc
  unfold sha256Hex at hc
  simp only [String.data, List.mem_append] at hc
  rcases hc with ((((((h|h)|h)|h)|h)|h)|h)|h <;> exact toHex8_chars _ c h

theorem hashString_length (v : Json) : (hashString v).length = 64 := rfl

theorem hashString_chars (v : Json) :
    ∀ c ∈ (hashString v).data, c ∈ "0123456789abcdef".data :=
  sha256Hex_chars _

/-! ## Claims -/

/-- C2: the mapping insert discipline is insert-if-absent: an absent
digest is appended and then found, a present digest leaves the mapping
unchanged (first-write-wins, even under collision), a repeated insert for
the same digest adds nothing, the entry count grows exactly when the
digest was absent, and the whole anonymizer pass never changes an
existing entry. -/
theorem claim_C2 :
    (∀ (m : Mapping) (k : String) (v : Json), mlookup m k = none →
       insertIfAbsent m k v = m ++ [(k, v)] ∧
       mlookup (insertIfAbsent m k v) k = some v) ∧
    (∀ (m : Mapping) (k : String) (v w : Json), mlookup m k = some w →
       insertIfAbsent m k v = m) ∧
    (∀ (m : Mapping) (k : String) (v v' : Json),
       insertIfAbsent (insertIfAbsent m k v) k v' = insertIfAbsent m k v) ∧
    (∀ (m : Mapping) (k : String) (v : Json),
       (insertIfAbsent m k v).length =
         if mlookup m k = none then m.length + 1 else m.length) ∧
    (∀ (es : List (String × Json)) (m : Mapping) (fields : List String)
       (x : String) (w : Json), mlookup m x = some w →
       mlookup (anonEntries es m fields).2 x = some w) := by
  refine ⟨?_, ?_, ?_, ?_, ?_⟩
  · intro m k v h
    exact ⟨insertIfAbsent_of_absent v h, insertIfAbsent_lookup_absent v h⟩
  · intro m k v w h
    exact insertIfAbsent_of_present v h
  · intro m k v v'
    exact insertIfAbsent_idem m k v v'
  · intro m k v
    exact insertIfAbsent_length m k v
  · intro es m fields x w h
    exact anonEntries_pres es m fields x w h

/-- C2 witness: the insert discipline at concrete inputs — a fresh digest
for `Alice` is appended and found; re-inserting under the same digest
leaves the single entry untouched. -/
theorem claim_C2_witness :
    insertIfAbsent [] (hashString (Json.str "Alice")) (Json.str "Alice") =
      [(hashString (Json.str "Alice"), Json.str "Alice")] ∧
    insertIfAbsent [(hashString (Json.str "Alice"), Json.str "Alice")]
        (hashString (Json.str "Alice")) (Json.str "Bob") =
      [(hashString (Json.str "Alice"), Json.str "Alice")] ∧
    mlookup (anonEntries [] [(hashString (Json.str "Alice"), Json.str "Alice")]
        FIELDS_TO_ANONYMIZE).2 (hashString (Json.str "Alice")) =
      some (Json.str "Alice") := by
  refine ⟨?_, ?_, ?_⟩
  · have h := (claim_C2.1 [] (hashString (Json.str "Alice")) (Json.str "Alice") rfl).1
    simpa using h
  · exact claim_C2.2.1 _ _ (Json.str "Bob") (Json.str "Alice") (by simp [mlookup])
  · exact claim_C2.2.2.2.2 [] _ FIELDS_TO_ANONYMIZE _ _ (by simp [mlookup])

/-- C5: a sensitive field with a null value is kept as null, never
hashed, and adds nothing to the mapping: `hash_value` returns `None` on
null, and the anonymizer copies a null-valued entry unchanged, for every
key, leaving the threaded mapping exactly as it was. -/
theorem claim_C5 :
    hash_value Json.null = none ∧
    (∀ (k : String) (rest : List (String × Json)) (m : Mapping) (fields : List String),
       anonEntries ((k, Json.null) :: rest) m fields =
         ((k, Json.null) :: (anonEntries rest m fields).1, (anonEntries rest m fields).2)) :=
  ⟨rfl, fun k rest m fields => anonEntries_cons_null k rest m fields⟩

/-- C6: the field-name match takes precedence over type-based recursion:
a sensitive key whose value is an object or an array is hashed as a leaf
(the digest of its Python string form), not recursed into. -/
theorem claim_C6 : ∀ (k : String) (fields : List String) (m : Mapping)
    (rest : List (String × Json)), k ∈ fields →
    (∀ oes : List (String × Json),
       anonEntries ((k, Json.obj oes) :: rest) m fields =
         ((k, Json.str (hashString (Json.obj oes))) ::
            (anonEntries rest
              (insertIfAbsent m (hashString (Json.obj oes)) (Json.obj oes)) fields).1,
          (anonEntries rest
            (insertIfAbsent m (hashString (Json.obj oes)) (Json.obj oes)) fields).2)) ∧
    (∀ items : List Json,
       anonEntries ((k, Json.arr items) :: rest) m fields =
         ((k, Json.str (hashString (Json.arr items))) ::
            (anonEntries rest
              (insertIfAbsent m (hashString (Json.arr items)) (Json.arr items)) fields).1,
          (anonEntries rest
            (insertIfAbsent m (hashString (Json.arr items)) (Json.arr items)) fields).2)) :=
  fun _ _ m rest hk =>
    ⟨fun _ => anonEntries_cons_sensitive rest m hk rfl,
     fun _ => anonEntries_cons_sensitive rest m hk rfl⟩

/-- C6 witness: a sensitive key holding an object is replaced by one
hash-string leaf and the object itself is stored as the original. -/
theorem claim_C6_witness :
    anonEntries [("PatientID", Json.obj [("a", Json.num 1)])] [] FIELDS_TO_ANONYMIZE =
      ([("PatientID", Json.str (hashString (Json.obj [("a", Json.num 1)])))],
       [(hashString (Json.obj [("a", Json.num 1)]), Json.obj [("a", Json.num 1)])]) := by
  have h := (claim_C6 "PatientID" FIELDS_TO_ANONYMIZE [] [] (by decide)).1 [("a", Json.num 1)]
  rw [h, anonEntries.eq_1]
  rfl

/-- C8 counterexample: a run over `{"PatientID": true}` then
`{"PatientID": 1}` builds a well-formed two-entry mapping, but Python
dict keys identify `True` with `1`, so the persisted reverse half
collapses onto the stored key `True` with `1`'s digest as its value:
`original_to_hash[hash_to_original[h]]` is not `h` at the digest of
`True`. A dict original — reachable via a sensitive key holding an
object — makes the comprehension raise instead, so no document at all. -/
theorem claim_C8_counterexample :
    (anonDocs [Json.obj [("PatientID", Json.bool true)],
               Json.obj [("PatientID", Json.num 1)]] [] FIELDS_TO_ANONYMIZE).2 =
      [(hashString (Json.bool true), Json.bool true),
       (hashString (Json.num 1), Json.num 1)] ∧
    WFmapping [(hashString (Json.bool true), Json.bool true),
               (hashString (Json.num 1), Json.num 1)] ∧
    save_mapping [(hashString (Json.bool true), Json.bool true),
                  (hashString (Json.num 1), Json.num 1)] =
      .ok { hash_to_original := [(hashString (Json.bool true), Json.bool true),
                                 (hashString (Json.num 1), Json.num 1)],
            original_to_hash := [(Json.bool true, hashString (Json.num 1))],
            total_mappings := 2 } ∧
    mlookup [(hashString (Json.bool true), Json.bool true),
             (hashString (Json.num 1), Json.num 1)]
        (hashString (Json.bool true)) = some (Json.bool true) ∧
    rlookup [(Json.bool true, hashString (Json.num 1))] (Json.bool true) ≠
      some (hashString (Json.bool true)) ∧
    save_mapping [(hashString (Json.obj [("a", Json.num 1)]),
                   Json.obj [("a", Json.num 1)])] = .error () := by
  have hd1 : anonymize_dict (Json.obj [("PatientID", Json.bool true)]) []
      FIELDS_TO_ANONYMIZE =
      (Json.obj [("PatientID", Json.str (hashString (Json.bool true)))],
       [(hashString (Json.bool true), Json.bool true)]) := by
    rw [anonymize_dict_obj,
        @anonEntries_cons_sensitive "PatientID" (Json.bool true)
          FIELDS_TO_ANONYMIZE [] [] (by decide) rfl, anonEntries.eq_1]
    rfl
  have hd2 : anonymize_dict (Json.obj [("PatientID", Json.num 1)])
      [(hashString (Json.bool true), Json.bool true)] FIELDS_TO_ANONYMIZE =
      (Json.obj [("PatientID", Json.str (hashString (Json.num 1)))],
       [(hashString (Json.bool true), Json.bool true),
        (hashString (Json.num 1), Json.num 1)]) := by
    rw [anonymize_dict_obj,
        @anonEntries_cons_sensitive "PatientID" (Json.num 1)
          FIELDS_TO_ANONYMIZE []
          [(hashString (Json.bool true), Json.bool true)] (by decide) rfl,
        anonEntries.eq_1,
        insertIfAbsent_of_absent (Json.num 1) (by decide)]
    rfl
  refine ⟨?_, by constructor <;> decide, rfl, by decide, by decide, rfl⟩
  simp only [anonDocs]
  rw [hd1, hd2]

/-- C8 (amended): as the source stands, the two halves are exact mutual
inverses only when every stored original is hashable (no dict or list
original — otherwise `save_mapping` raises and persists nothing) and the
stored originals are pairwise distinct under Python `==` (a boolean
original collides with its integer value). Under those conditions, with
the mapping well-formed as every run keeps it, the persisted
`original_to_hash` is the entrywise swap of `hash_to_original`, each
digest round-trips through the two halves, each reverse entry points to
a digest whose stored original is Python-`==` to the queried one, and
`total_mappings` counts the forward entries; runs from the empty mapping
always build a well-formed mapping. -/
theorem claim_C8 : ∀ m : Mapping, WFmapping m → HashableVals m → PyDistinct m →
    (save_mapping m =
       .ok { hash_to_original := m,
             original_to_hash := m.map (fun p => (p.2, p.1)),
             total_mappings := m.length } ∧
     (∀ (h : String) (v : Json), mlookup m h = some v →
        rlookup (m.map (fun p => (p.2, p.1))) v = some h) ∧
     (∀ (v : Json) (h : String),
        rlookup (m.map (fun p => (p.2, p.1))) v = some h →
        ∃ w, mlookup m h = some w ∧ pyEq w v = true) ∧
     m.length = m.length) ∧
    (∀ (es : List (String × Json)) (fields : List String),
       WFmapping (anonEntries es [] fields).2) := by
  intro m hwf hhash hdist
  refine ⟨⟨?_, ?_, ?_, rfl⟩, ?_⟩
  · rw [save_mapping, reverseMapping_eq hhash hdist]
  · intro h v hl
    exact rev_forward hdist hl
  · intro v h hl
    exact rev_backward hwf.1 hl
  · intro es fields
    exact anonEntries_WF es [] fields ⟨List.nodup_nil, by simp⟩

/-- C8 witness: the two-entry all-string mapping a run over `Alice` and
`Bob` builds satisfies every hypothesis, persists the swapped reverse
half, and sends `Alice` back to its own digest. -/
theorem claim_C8_witness :
    WFmapping [(hashString (Json.str "Alice"), Json.str "Alice"),
               (hashString (Json.str "Bob"), Json.str "Bob")] ∧
    save_mapping [(hashString (Json.str "Alice"), Json.str "Alice"),
                  (hashString (Json.str "Bob"), Json.str "Bob")] =
      .ok { hash_to_original := [(hashString (Json.str "Alice"), Json.str "Alice"),
                                 (hashString (Json.str "Bob"), Json.str "Bob")],
            original_to_hash := [(Json.str "Alice", hashString (Json.str "Alice")),
                                 (Json.str "Bob", hashString (Json.str "Bob"))],
            total_mappings := 2 } ∧
    rlookup [(Json.str "Alice", hashString (Json.str "Alice")),
             (Json.str "Bob", hashString (Json.str "Bob"))] (Json.str "Alice") =
      some (hashString (Json.str "Alice")) := by
  have hwf : WFmapping [(hashString (Json.str "Alice"), Json.str "Alice"),
                        (hashString (Json.str "Bob"), Json.str "Bob")] := by
    constructor <;> decide
  have hhash : HashableVals [(hashString (Json.str "Alice"), Json.str "Alice"),
                             (hashString (Json.str "Bob"), Json.str "Bob")] := by
    intro p hp
    rcases List.mem_cons.mp hp with h1 | h1
    · subst h1; rfl
    · simp at h1; subst h1; rfl
  have hdist : PyDistinct [(hashString (Json.str "Alice"), Json.str "Alice"),
                           (hashString (Json.str "Bob"), Json.str "Bob")] := by
    rw [PyDistinct]
    simp only [List.map_cons, List.map_nil, List.pairwise_cons]
    refine ⟨?_, ?_, List.Pairwise.nil⟩
    · intro b hb
      simp at hb
      subst hb
      decide
    · intro b hb
      simp at hb
  have h := claim_C8 _ hwf hhash hdist
  refine ⟨hwf, h.1.1, ?_⟩
  have h2 := h.1.2.1 (hashString (Json.str "Alice")) (Json.str "Alice")
    (by simp [mlookup])
  simpa using h2

/-- C9: anonymization is not idempotent: on `{"FirstName": "Alice"}` a
second pass replaces the digest with the digest of the digest, so the
double application differs from the single one — field names, not value
shape, drive substitution. -/
theorem claim_C9 :
    (anonymize_dict
       (anonymize_dict (Json.obj [("FirstName", Json.str "Alice")]) []
         FIELDS_TO_ANONYMIZE).1 [] FIELDS_TO_ANONYMIZE).1 ≠
    (anonymize_dict (Json.obj [("FirstName", Json.str "Alice")]) []
       FIELDS_TO_ANONYMIZE).1 := by
  have h1 : anonymize_dict (Json.obj [("FirstName", Json.str "Alice")]) []
      FIELDS_TO_ANONYMIZE =
      (Json.obj [("FirstName", Json.str (hashString (Json.str "Alice")))],
       [(hashString (Json.str "Alice"), Json.str "Alice")]) := by
    rw [anonymize_dict_obj,
        @anonEntries_cons_sensitive "FirstName" (Json.str "Alice") FIELDS_TO_ANONYMIZE [] []
          (by decide) rfl,
        anonEntries.eq_1]
    rfl
  have h2 : anonymize_dict
      (Json.obj [("FirstName", Json.str (hashString (Json.str "Alice")))]) []
      FIELDS_TO_ANONYMIZE =
      (Json.obj [("FirstName",
          Json.str (hashString (Json.str (hashString (Json.str "Alice")))))],
       [(hashString (Json.str (hashString (Json.str "Alice"))),
         Json.str (hashString (Json.str "Alice")))]) := by
    rw [anonymize_dict_obj,
        @anonEntries_cons_sensitive "FirstName"
          (Json.str (hashString (Json.str "Alice"))) FIELDS_TO_ANONYMIZE [] []
          (by decide) rfl,
        anonEntries.eq_1]
    rfl
  rw [h1, h2]
  decide

/-! ## Routing step lemmas -/

theorem specEntries_nil (fields : List String) : specEntries fields [] = [] := by
  rw [specEntries]

theorem mainStep_jsonl (f : SrcFile) (m : Mapping) (fields : List String)
    (hsuf : pathSuffix f.name = ".jsonl") :
    mainStep f m fields =
      match process_jsonl_file f.lines m fields with
      | .ok (docs, m1, n) => .ok (.jsonlOut docs, m1, n)
      | .error me => .error me := by
  unfold mainStep
  rw [if_pos hsuf]

theorem mainStep_json_skip (f : SrcFile) (m : Mapping) (fields : List String)
    (hsuf : pathSuffix f.name = ".json") (hsys : hasSysteminfo f.name = true) :
    mainStep f m fields = .ok (.unchanged, m, 0) := by
  unfold mainStep
  rw [if_neg (show ¬pathSuffix f.name = ".jsonl" by rw [hsuf]; decide),
      if_pos hsuf, if_pos hsys]

theorem mainStep_json_doc (f : SrcFile) (m : Mapping) (fields : List String)
    (doc : Json) (hsuf : pathSuffix f.name = ".json")
    (hsys : hasSysteminfo f.name = false) (hwhole : f.whole = some doc) :
    mainStep f m fields =
      .ok ((process_json_file doc m fields).2.1,
           (process_json_file doc m fields).2.2, 0) := by
  unfold mainStep
  rw [if_neg (show ¬pathSuffix f.name = ".jsonl" by rw [hsuf]; decide),
      if_pos hsuf, if_neg (show ¬hasSysteminfo f.name = true by rw [hsys]; decide),
      hwhole]

theorem runMain_cons (f : SrcFile) (rest : List SrcFile) (m : Mapping)
    (fields : List String) :
    runMain (f :: rest) m fields =
      match mainStep f m fields with
      | .error me => .error me
      | .ok (out, m1, n) =>
          match runMain rest m1 fields with
          | .ok (outs, m2, total) => .ok (out :: outs, m2, n + total)
          | .error me => .error me := rfl

/-- C1: on every object the anonymizer returns an object with the same
keys in the same order, whose per-entry values are exactly the claimed
transform (sensitive non-null values hashed, object values recursed,
array values recursed elementwise on objects only, the rest untouched) —
independently of the mapping state; every sensitive non-null entry's
digest becomes a mapping key; and everything the pass adds to the mapping
is keyed by the digest of its stored original. -/
theorem claim_C1 :
    (∀ (es : List (String × Json)) (m : Mapping) (fields : List String),
       (anonymize_dict (Json.obj es) m fields).1 =
         Json.obj (es.map (fun p => (p.1, specEntry fields p.1 p.2)))) ∧
    (∀ (es : List (String × Json)) (m : Mapping) (fields : List String),
       (anonEntries es m fields).1.map Prod.fst = es.map Prod.fst) ∧
    (∀ (es : List (String × Json)) (m : Mapping) (fields : List String)
       (k : String) (v : Json), (k, v) ∈ es → k ∈ fields → v.isNull = false →
       mlookup (anonEntries es m fields).2 (hashString v) ≠ none) ∧
    (∀ (es : List (String × Json)) (m : Mapping) (fields : List String)
       (x : String) (w : Json), mlookup (anonEntries es m fields).2 x = some w →
       mlookup m x = some w ∨ x = hashString w) := by
  refine ⟨?_, ?_, ?_, ?_⟩
  · intro es m fields
    rw [anonymize_dict_obj]
    show Json.obj (anonEntries es m fields).1 = _
    rw [anonEntries_fst es m fields, specEntries_as_map]
  · intro es m fields
    exact anonEntries_keys es m fields
  · intro es m fields k v h1 h2 h3
    exact anonEntries_cover es m fields k v h1 h2 h3
  · intro es m fields x w h
    exact anonEntries_sound es m fields x w h

/-- C1 witness: the spec's nested-substitution example — only the nested
`FirstName` is hashed, `Age` survives, and the digest is recorded. -/
theorem claim_C1_witness :
    (anonymize_dict
       (Json.obj [("Patient",
          Json.obj [("FirstName", Json.str "Alice"), ("Age", Json.num 5)])]) []
       FIELDS_TO_ANONYMIZE).1 =
      Json.obj [("Patient",
        Json.obj [("FirstName", Json.str (hashString (Json.str "Alice"))),
                  ("Age", Json.num 5)])] ∧
    mlookup (anonEntries [("FirstName", Json.str "Alice")] []
        FIELDS_TO_ANONYMIZE).2 (hashString (Json.str "Alice")) ≠ none ∧
    (mlookup [] (hashString (Json.str "Alice")) = some (Json.str "Alice") ∨
      hashString (Json.str "Alice") = hashString (Json.str "Alice")) := by
  refine ⟨?_, ?_, ?_⟩
  · have h := claim_C1.1
      [("Patient", Json.obj [("FirstName", Json.str "Alice"), ("Age", Json.num 5)])]
      [] FIELDS_TO_ANONYMIZE
    rw [h]
    simp only [List.map_cons, List.map_nil]
    rw [@specEntry_obj "Patient" FIELDS_TO_ANONYMIZE
          [("FirstName", Json.str "Alice"), ("Age", Json.num 5)] (by decide),
        specEntries_cons, specEntries_cons, specEntries_nil,
        @specEntry_sensitive "FirstName" (Json.str "Alice") FIELDS_TO_ANONYMIZE
          (by decide) rfl,
        @specEntry_other (Json.num 5) "Age" FIELDS_TO_ANONYMIZE (by decide) rfl rfl]
  · exact claim_C1.2.2.1 [("FirstName", Json.str "Alice")] [] FIELDS_TO_ANONYMIZE
      "FirstName" (Json.str "Alice") (by simp) (by decide) rfl
  · refine claim_C1.2.2.2 [("FirstName", Json.str "Alice")] [] FIELDS_TO_ANONYMIZE
      (hashString (Json.str "Alice")) (Json.str "Alice") ?_
    rw [@anonEntries_cons_sensitive "FirstName" (Json.str "Alice")
          FIELDS_TO_ANONYMIZE [] [] (by decide) rfl, anonEntries.eq_1]
    simp [mlookup]

/-- C3: blank lines are skipped before parsing; with no malformed line
the file is replaced and the result counts exactly the non-blank lines,
each parsed and anonymized independently in order; a malformed line
aborts with only the preceding lines processed — the lines after it never
matter — and the original file is left in place. -/
theorem claim_C3 :
    (∀ (rest : List Line) (m : Mapping) (fields : List String),
       process_jsonl_file (Line.blank :: rest) m fields =
         process_jsonl_file rest m fields) ∧
    (∀ (lines : List Line) (m : Mapping) (fields : List String),
       (∀ l ∈ lines, l ≠ Line.malformed) →
       process_jsonl_file lines m fields =
         .ok ((anonDocs (docsOf lines) m fields).1,
              (anonDocs (docsOf lines) m fields).2, (docsOf lines).length) ∧
       (docsOf lines).length = (lines.filter Line.nonBlank).length) ∧
    (∀ (pre post : List Line) (m : Mapping) (fields : List String),
       (∀ l ∈ pre, l ≠ Line.malformed) →
       process_jsonl_file (pre ++ Line.malformed :: post) m fields =
         .error (anonDocs (docsOf pre) m fields).2) ∧
    (∀ (name : String) (pre post : List Line) (whole : Option Json)
       (m : Mapping) (fields : List String),
       pathSuffix name = ".jsonl" → (∀ l ∈ pre, l ≠ Line.malformed) →
       fileAfter ⟨name, pre ++ Line.malformed :: post, whole⟩ m fields = .unchanged) := by
  refine ⟨fun _ _ _ => rfl, ?_, ?_, ?_⟩
  · intro lines m fields h
    exact ⟨process_jsonl_ok m fields h, docsOf_length_eq_nonBlank h⟩
  · intro pre post m fields h
    exact process_jsonl_error post m fields h
  · intro name pre post whole m fields hsuf hpre
    unfold fileAfter
    rw [mainStep_jsonl ⟨name, pre ++ Line.malformed :: post, whole⟩ m fields hsuf,
        process_jsonl_error post m fields hpre]

/-- C3 witness: a blank line is skipped; a two-line file with one doc
line processes to one record; a malformed second line aborts with only
the first line's effect, whatever follows; the file stays in place. -/
theorem claim_C3_witness :
    process_jsonl_file [Line.blank, Line.doc (Json.num 1)] [] FIELDS_TO_ANONYMIZE =
      process_jsonl_file [Line.doc (Json.num 1)] [] FIELDS_TO_ANONYMIZE ∧
    process_jsonl_file [Line.blank, Line.doc (Json.num 1)] [] FIELDS_TO_ANONYMIZE =
      .ok ((anonDocs (docsOf [Line.blank, Line.doc (Json.num 1)]) []
              FIELDS_TO_ANONYMIZE).1,
           (anonDocs (docsOf [Line.blank, Line.doc (Json.num 1)]) []
              FIELDS_TO_ANONYMIZE).2,
           (docsOf [Line.blank, Line.doc (Json.num 1)]).length) ∧
    (docsOf [Line.blank, Line.doc (Json.num 1)]).length =
      ([Line.blank, Line.doc (Json.num 1)].filter Line.nonBlank).length ∧
    process_jsonl_file ([Line.doc (Json.num 1)] ++ Line.malformed :: [Line.blank])
        [] FIELDS_TO_ANONYMIZE =
      .error (anonDocs (docsOf [Line.doc (Json.num 1)]) [] FIELDS_TO_ANONYMIZE).2 ∧
    fileAfter ⟨"data_x.jsonl", [] ++ Line.malformed :: [], none⟩ []
      FIELDS_TO_ANONYMIZE = .unchanged := by
  refine ⟨claim_C3.1 _ _ _, ?_, ?_, ?_, ?_⟩
  · exact (claim_C3.2.1 _ [] FIELDS_TO_ANONYMIZE (by decide)).1
  · exact (claim_C3.2.1 _ [] FIELDS_TO_ANONYMIZE (by decide)).2
  · exact claim_C3.2.2.1 [Line.doc (Json.num 1)] [Line.blank] [] FIELDS_TO_ANONYMIZE
      (by decide)
  · exact claim_C3.2.2.2 "data_x.jsonl" [] [] none [] FIELDS_TO_ANONYMIZE rfl
      (by decide)

/-- C4 counterexample: `data_systeminfo.jsonl` matches the discovery
globs and carries `systeminfo` in its name, yet it is routed by its
`.jsonl` extension straight into the JSONL processor — the skip check
lives only in the `.json` branch — so it is processed, rewritten, its
sensitive field enters the mapping, and its one record is counted. -/
theorem claim_C4_counterexample :
    discovered "data_systeminfo.jsonl" = true ∧
    hasSysteminfo "data_systeminfo.jsonl" = true ∧
    mainStep ⟨"data_systeminfo.jsonl",
        [Line.doc (Json.obj [("PatientID", Json.str "p1")])], none⟩ []
      FIELDS_TO_ANONYMIZE =
      .ok (.jsonlOut [Json.obj [("PatientID", Json.str (hashString (Json.str "p1")))]],
           [(hashString (Json.str "p1"), Json.str "p1")], 1) ∧
    mainStep ⟨"data_systeminfo.jsonl",
        [Line.doc (Json.obj [("PatientID", Json.str "p1")])], none⟩ []
      FIELDS_TO_ANONYMIZE ≠ .ok (.unchanged, [], 0) := by
  have hd : anonymize_dict (Json.obj [("PatientID", Json.str "p1")]) []
      FIELDS_TO_ANONYMIZE =
      (Json.obj [("PatientID", Json.str (hashString (Json.str "p1")))],
       [(hashString (Json.str "p1"), Json.str "p1")]) := by
    rw [anonymize_dict_obj,
        @anonEntries_cons_sensitive "PatientID" (Json.str "p1") FIELDS_TO_ANONYMIZE
          [] [] (by decide) rfl, anonEntries.eq_1]
    rfl
  have hp : process_jsonl_file [Line.doc (Json.obj [("PatientID", Json.str "p1")])]
      [] FIELDS_TO_ANONYMIZE =
      .ok ([Json.obj [("PatientID", Json.str (hashString (Json.str "p1")))]],
           [(hashString (Json.str "p1"), Json.str "p1")], 1) := by
    simp only [process_jsonl_file]
    rw [hd]
  have hm : mainStep ⟨"data_systeminfo.jsonl",
      [Line.doc (Json.obj [("PatientID", Json.str "p1")])], none⟩ []
      FIELDS_TO_ANONYMIZE =
      .ok (.jsonlOut [Json.obj [("PatientID", Json.str (hashString (Json.str "p1")))]],
           [(hashString (Json.str "p1"), Json.str "p1")], 1) := by
    rw [mainStep_jsonl ⟨"data_systeminfo.jsonl",
          [Line.doc (Json.obj [("PatientID", Json.str "p1")])], none⟩ []
          FIELDS_TO_ANONYMIZE rfl, hp]
  refine ⟨rfl, rfl, hm, ?_⟩
  rw [hm]
  intro he
  cases he

/-- C4 amended: a discovered file routed to the JSON processor by its
`.json` extension and whose path contains `systeminfo` is skipped before
parsing: the step returns with the file unchanged, the mapping as it was,
and a zero record count (.jsonl-routed files are not subject to this
check). -/
theorem claim_C4_amended : ∀ (f : SrcFile) (m : Mapping) (fields : List String),
    pathSuffix f.name = ".json" → hasSysteminfo f.name = true →
    mainStep f m fields = .ok (.unchanged, m, 0) ∧
    fileAfter f m fields = .unchanged := by
  intro f m fields hsuf hsys
  have h1 : mainStep f m fields = .ok (.unchanged, m, 0) :=
    mainStep_json_skip f m fields hsuf hsys
  refine ⟨h1, ?_⟩
  unfold fileAfter
  rw [h1]

/-- C4 amended witness: `failed_patients_systeminfo.json` is discovered,
routed by `.json`, and skipped with nothing changed. -/
theorem claim_C4_amended_witness :
    discovered "failed_patients_systeminfo.json" = true ∧
    mainStep ⟨"failed_patients_systeminfo.json", [], some (Json.num 1)⟩ []
      FIELDS_TO_ANONYMIZE = .ok (.unchanged, [], 0) ∧
    fileAfter ⟨"failed_patients_systeminfo.json", [], some (Json.num 1)⟩ []
      FIELDS_TO_ANONYMIZE = .unchanged := by
  have h := claim_C4_amended ⟨"failed_patients_systeminfo.json", [], some (Json.num 1)⟩
    [] FIELDS_TO_ANONYMIZE rfl rfl
  exact ⟨rfl, h.1, h.2⟩

/-- C7: a `.json` file whose top-level value is neither an array nor an
object is not an error: the processor reports `False` with the file and
mapping untouched, and the main loop carries on with the remaining files,
recording the file as unchanged. -/
theorem claim_C7 : ∀ (doc : Json) (m : Mapping) (fields : List String),
    doc.isArrB = false → doc.isObjB = false →
    process_json_file doc m fields = (false, .unchanged, m) ∧
    (∀ (name : String) (ls : List Line) (rest : List SrcFile),
       pathSuffix name = ".json" → hasSysteminfo name = false →
       runMain (⟨name, ls, some doc⟩ :: rest) m fields =
         match runMain rest m fields with
         | .ok (outs, m2, t) => .ok (FileOut.unchanged :: outs, m2, t)
         | .error e => .error e) := by
  intro doc m fields harr hobj
  have hp : process_json_file doc m fields = (false, .unchanged, m) := by
    cases doc with
    | arr items => simp [Json.isArrB] at harr
    | obj es => simp [Json.isObjB] at hobj
    | null => rfl
    | bool b => rfl
    | num n => rfl
    | str s => rfl
  refine ⟨hp, ?_⟩
  intro name ls rest hsuf hsys
  rw [runMain_cons,
      mainStep_json_doc ⟨name, ls, some doc⟩ m fields doc hsuf hsys rfl, hp]
  cases hr : runMain rest m fields with
  | ok r => obtain ⟨outs, m2, t⟩ := r; simp [hr]
  | error e => simp [hr]

/-- C7 witness: a bare JSON number 42 in a discovered `.json` file is
reported not processed and the run continues over an empty remainder. -/
theorem claim_C7_witness :
    process_json_file (Json.num 42) [] FIELDS_TO_ANONYMIZE =
      (false, .unchanged, []) ∧
    runMain [⟨"failed_patients_x.json", [], some (Json.num 42)⟩] []
      FIELDS_TO_ANONYMIZE = .ok ([FileOut.unchanged], [], 0) := by
  have h := claim_C7 (Json.num 42) [] FIELDS_TO_ANONYMIZE rfl rfl
  refine ⟨h.1, ?_⟩
  rw [h.2 "failed_patients_x.json" [] [] rfl rfl]
  rfl

/-- C10: whatever a sensitive non-null value is — string, number,
boolean, object or array — its substitute is the string-typed JSON value
holding its digest: 64 characters, all lowercase hexadecimal. -/
theorem claim_C10 : ∀ (k : String) (v : Json) (rest : List (String × Json))
    (m : Mapping) (fields : List String), k ∈ fields → v.isNull = false →
    (anonEntries ((k, v) :: rest) m fields).1.head? =
      some (k, Json.str (hashString v)) ∧
    (hashString v).length = 64 ∧
    ∀ c ∈ (hashString v).data, c ∈ "0123456789abcdef".data := by
  intro k v rest m fields h1 h2
  refine ⟨?_, hashString_length v, hashString_chars v⟩
  rw [anonEntries_cons_sensitive rest m h1 h2]
  rfl

/-- C10 witness: the number 5 under `PatientID` becomes a string-typed
64-character lowercase-hex digest. -/
theorem claim_C10_witness :
    (anonEntries [("PatientID", Json.num 5)] [] FIELDS_TO_ANONYMIZE).1.head? =
      some ("PatientID", Json.str (hashString (Json.num 5))) ∧
    (hashString (Json.num 5)).length = 64 ∧
    ∀ c ∈ (hashString (Json.num 5)).data, c ∈ "0123456789abcdef".data :=
  claim_C10 "PatientID" (Json.num 5) [] [] FIELDS_TO_ANONYMIZE (by decide) rfl

end Anonymizer
